import Mathlib

/-!
# gh-file: a shallow embedding of `main.go`

The program uploads one local file to a GitHub repository through the Contents
REST endpoint and keeps a small JSON configuration file.

Modelling conventions.

* Go `string` values are modelled by `String` (sequences of Unicode scalar
  values); byte strings that are not UTF-8 text are outside the model. Every
  configuration the program saves is such text: its fields come from `fmt.Scan`
  and from `json.Unmarshal`, which both produce UTF-8.
* The process environment (user configuration directory, writability of a path,
  URL acceptance by `http.NewRequest`, the HTTP round trip) is an explicit
  `Env` record; the mutable part of the process (file system, standard input,
  the two package-level variables `config` and `file`, and the observable
  trace) is an explicit `World` record.
* `os.Exit` and `panic` are modelled by the `Outcome` type.
* The parts of the Go standard library the program calls (`fmt.Sprintf`,
  `fmt.Println`, `fmt.Scan`, `encoding/json` on structs of strings,
  `encoding/base64`) are modelled by executable definitions in the first
  sections of the file.
* Parsing of the command line by the `flag` package is not modelled: the
  commands take the values of their flags (`PushFlags`) and `os.Args`.

The file has three parts: the definitions, lemmas on them, and the statements
about the push command and the configuration store.
-/

namespace GhFile

/-! ## Data model (`main.go` lines 14-33) -/

/-- The persisted configuration record, `type configuration struct`. -/
structure configuration where
  Repo : String
  Token : String
  Username : String
  DefaultBranch : String
  DefaultPath : String
  deriving DecidableEq, Repr

/-- The zero value of `configuration` (every field the empty string). -/
def configuration.zero : configuration := ⟨"", "", "", "", ""⟩

/-- The request record, `type requestFormat struct`. -/
structure requestFormat where
  M : String
  C : String
  SHA : String
  Branch : String
  Path : String
  deriving DecidableEq, Repr

/-- The zero value of `requestFormat`, as produced by `var requestBody requestFormat`. -/
def requestFormat.zero : requestFormat := ⟨"", "", "", "", ""⟩

/-! ## `encoding/json`: writing a struct of strings -/

/-- A struct tag as `encoding/json` reads it: the key, the `omitempty` option, and
whether the tag is `json:"-"` (field never written). -/
structure JsonTag where
  key : String
  omitempty : Bool
  skip : Bool
  deriving DecidableEq, Repr

/-- Members written for a struct whose fields are all strings: a field tagged `-` is
dropped, a field tagged `omitempty` is dropped when it is the empty string, and the
others are written in declaration order under their key. -/
def marshalMembers (fields : List (JsonTag × String)) : List (String × String) :=
  fields.filterMap fun tv =>
    if tv.1.skip then none
    else if tv.1.omitempty && tv.2 == "" then none
    else some (tv.1.key, tv.2)

/-- Lower-case hexadecimal digit of a number below sixteen. -/
def hexDigit (n : Nat) : Char :=
  if n < 10 then Char.ofNat (48 + n) else Char.ofNat (87 + n)

/-- How `encoding/json` writes one character of a string (HTML escaping on, the
default of `json.Marshal` and `json.MarshalIndent`): a backslash before the quote and
the backslash, the short forms for newline, carriage return and tab, `\u00XX` for the
other control characters and for `<`, `>`, `&`, `\u2028` and `\u2029` for the two
line separators, and every other character as it is. (Go releases from 1.22 on write
the short forms `\b` and `\f` for two of the control characters; `readStringFuel`
reads both forms.) -/
def escapeChar (c : Char) : List Char :=
  if c = '\\' ∨ c = '\"' then ['\\', c]
  else if c = '\n' then ['\\', 'n']
  else if c = '\r' then ['\\', 'r']
  else if c = '\t' then ['\\', 't']
  else if c.toNat < 32 ∨ c = '<' ∨ c = '>' ∨ c = '&' then
    ['\\', 'u', '0', '0', hexDigit (c.toNat / 16), hexDigit (c.toNat % 16)]
  else if c.toNat = 0x2028 then ['\\', 'u', '2', '0', '2', '8']
  else if c.toNat = 0x2029 then ['\\', 'u', '2', '0', '2', '9']
  else [c]

/-- Escaped contents of a string literal (without the surrounding quotes). -/
def escapeChars (cs : List Char) : List Char :=
  cs.flatMap escapeChar

/-- A JSON string literal. -/
def quoteJson (s : String) : List Char :=
  '\"' :: (escapeChars s.toList ++ ['\"'])

/-- Compact rendering of the members of an object, as `json.Marshal` writes them. -/
def renderMembers : List (String × String) → List Char
  | [] => []
  | [kv] => quoteJson kv.1 ++ ':' :: quoteJson kv.2
  | kv :: rest => quoteJson kv.1 ++ ':' :: quoteJson kv.2 ++ ',' :: renderMembers rest

/-- Compact rendering of an object. -/
def renderObject (ms : List (String × String)) : String :=
  String.mk ('\x7b' :: (renderMembers ms ++ ['\x7d']))

/-- Indented rendering of the members of an object, as `json.MarshalIndent` writes
them with an empty line lead and the given indent. -/
def renderMembersIndent (indent : List Char) : List (String × String) → List Char
  | [] => []
  | [kv] => '\n' :: indent ++ quoteJson kv.1 ++ ':' :: ' ' :: quoteJson kv.2 ++ ['\n']
  | kv :: rest =>
    '\n' :: indent ++ quoteJson kv.1 ++ ':' :: ' ' :: quoteJson kv.2 ++ ','
      :: renderMembersIndent indent rest

/-- Indented rendering of an object. -/
def renderObjectIndent (indent : String) (ms : List (String × String)) : String :=
  String.mk ('\x7b' :: (renderMembersIndent indent.toList ms ++ ['\x7d']))

/-- The fields of `requestFormat` with their struct tags (lines 22-28). -/
def requestFormat.fields (r : requestFormat) : List (JsonTag × String) :=
  [ (⟨"message", false, false⟩, r.M),
    (⟨"content", false, false⟩, r.C),
    (⟨"sha", true, false⟩, r.SHA),
    (⟨"branch", true, false⟩, r.Branch),
    (⟨"-", false, true⟩, r.Path) ]

/-- The fields of `configuration` with their struct tags (lines 14-20). -/
def configuration.fields (c : configuration) : List (JsonTag × String) :=
  [ (⟨"repo", false, false⟩, c.Repo),
    (⟨"token", false, false⟩, c.Token),
    (⟨"username", false, false⟩, c.Username),
    (⟨"default_branch", false, false⟩, c.DefaultBranch),
    (⟨"default_path", false, false⟩, c.DefaultPath) ]

/-- The members of the JSON object `json.Marshal(requestBody)` writes. -/
def requestFormat.members (r : requestFormat) : List (String × String) :=
  marshalMembers r.fields

/-- The text `json.Marshal(requestBody)` produces (line 148). -/
def requestFormat.marshal (r : requestFormat) : String :=
  renderObject r.members

/-- The text `json.MarshalIndent(config, "", "    ")` produces (lines 89 and 227). -/
def configuration.marshalIndent (c : configuration) : String :=
  renderObjectIndent "    " (marshalMembers c.fields)

/-! ## `encoding/base64` -/

/-- The standard base64 alphabet. -/
def base64Alphabet : List Char :=
  "ABCDEFGHIJKLMNOPQRSTUVWXYZabcdefghijklmnopqrstuvwxyz0123456789+/".toList

/-- The character of a six-bit value. -/
def base64Char (n : Nat) : Char :=
  base64Alphabet.getD n 'A'

/-- Padded standard base64 of a byte sequence, `base64.StdEncoding.EncodeToString`. -/
def base64Bytes : List Nat → List Char
  | a :: b :: c :: rest =>
    let n := a * 65536 + b * 256 + c
    base64Char (n / 262144) :: base64Char (n / 4096 % 64) :: base64Char (n / 64 % 64)
      :: base64Char (n % 64) :: base64Bytes rest
  | [a, b] =>
    let n := a * 65536 + b * 256
    [base64Char (n / 262144), base64Char (n / 4096 % 64), base64Char (n / 64 % 64), '=']
  | [a] =>
    let n := a * 65536
    [base64Char (n / 262144), base64Char (n / 4096 % 64), '=', '=']
  | [] => []

/-- Base64 of the bytes of a file whose contents are the given text. -/
def base64Encode (content : String) : String :=
  String.mk (base64Bytes ((content.toList.flatMap String.utf8EncodeChar).map UInt8.toNat))

/-! ## Process model -/

/-- An HTTP request as the push command builds it (lines 153-159). -/
structure Request where
  method : String
  url : String
  body : String
  accept : String
  authUser : String
  authPassword : String
  deriving DecidableEq, Repr

/-- Observable events of a run, in order. `usage` stands for the usage text of a flag
set; `firstTimeCall` marks each entry into `firstTime` and is bookkeeping of the
model, not output of the program. -/
inductive Event where
  | print (text : String)
  | usage (command : String)
  | firstTimeCall
  | fileWritten (path : String) (data : String)
  | requestBuilt (req : Request)
  | requestSent (req : Request)
  deriving DecidableEq, Repr

/-- What the process cannot change: the result of `os.UserConfigDir`, whether
`ioutil.WriteFile` fails on a path (after the `os.Mkdir` attempt of `saveConfig`),
whether `http.NewRequest` rejects a URL, and the answer of the network to a request
(an error, or a status code with a response body). -/
structure Env where
  userConfigDir : Except String String
  writeErr : String → Option String
  urlErr : String → Option String
  roundTrip : Request → Except String (Int × String)

/-- The mutable state of the process: the file system as seen by `ioutil.ReadFile`,
the unread part of standard input, the package-level variables `config` and `file`,
and the trace of events so far. -/
structure World where
  fs : String → Except String String
  stdin : List Char
  config : configuration
  file : String
  trace : List Event

/-- Result of running a piece of the program: it returns normally, or the process
ends through `os.Exit`, or through `panic`. -/
inductive Outcome (α : Type) where
  | ok (w : World) (a : α)
  | exit (w : World) (code : Nat)
  | panicked (w : World) (msg : String)

/-- The world in which an outcome leaves the process. -/
def Outcome.world {α : Type} : Outcome α → World
  | .ok w _ => w
  | .exit w _ => w
  | .panicked w _ => w

/-- The exit code of an outcome that ended through `os.Exit`. -/
def Outcome.exitCode {α : Type} : Outcome α → Option Nat
  | .exit _ code => some code
  | _ => none

/-- Appends printed text to the trace. -/
def World.print (w : World) (text : String) : World :=
  { w with trace := w.trace ++ [Event.print text] }

/-- Appends an event to the trace. -/
def World.emit (w : World) (e : Event) : World :=
  { w with trace := w.trace ++ [e] }

/-- The texts printed in a trace, in order. -/
def printed : List Event → List String
  | [] => []
  | Event.print t :: rest => t :: printed rest
  | _ :: rest => printed rest

/-- The requests sent in a trace, in order. -/
def sentRequests : List Event → List Request
  | [] => []
  | Event.requestSent r :: rest => r :: sentRequests rest
  | _ :: rest => sentRequests rest

/-- The requests built in a trace, in order. -/
def builtRequests : List Event → List Request
  | [] => []
  | Event.requestBuilt r :: rest => r :: builtRequests rest
  | _ :: rest => builtRequests rest

/-- Number of entries into `firstTime` recorded in a trace. -/
def firstTimeCalls : List Event → Nat
  | [] => 0
  | Event.firstTimeCall :: rest => firstTimeCalls rest + 1
  | _ :: rest => firstTimeCalls rest

/-! ## `fmt`: formatting and scanning -/

/-- How `fmt` shows a string operand under a verb that does not apply to strings. -/
def badVerb (v : Char) (arg : String) : List Char :=
  '%' :: '!' :: v :: ("(string=" ++ arg ++ ")").toList

/-- How `fmt` shows operands that no verb consumed. -/
def extraOperands (args : List String) : List Char :=
  ("%!(EXTRA " ++ ", ".intercalate (args.map fun a => "string=" ++ a) ++ ")").toList

/-- Formatting of a format string against string operands: `%s` and `%v` insert the
next operand verbatim, `%%` is a percent sign, every other character is copied. -/
def sprintfChars : List Char → List String → List Char
  | [], [] => []
  | [], a :: as => extraOperands (a :: as)
  | ['%'], _ => "%!(NOVERB)".toList
  | '%' :: v :: rest, args =>
    if v = '%' then '%' :: sprintfChars rest args
    else
      match args with
      | [] => '%' :: '!' :: v :: ("(MISSING)".toList ++ sprintfChars rest [])
      | a :: as =>
        if v = 's' ∨ v = 'v' then a.toList ++ sprintfChars rest as
        else badVerb v a ++ sprintfChars rest as
  | c :: rest, args => c :: sprintfChars rest args

/-- The function `fmt.Sprintf` on string operands. -/
def sprintf (format : String) (args : List String) : String :=
  String.mk (sprintfChars format.toList args)

/-- The function `fmt.Println` on string operands: operands separated by one space,
then a newline. -/
def sprintln (args : List String) : String :=
  " ".intercalate args ++ "\n"

/-- The space characters of `fmt` scanning. -/
def isSpace (c : Char) : Bool :=
  let n := c.toNat
  (9 ≤ n && n ≤ 13) || n == 0x20 || n == 0x85 || n == 0xA0 || n == 0x1680
    || (0x2000 ≤ n && n ≤ 0x200A) || n == 0x2028 || n == 0x2029 || n == 0x202F
    || n == 0x205F || n == 0x3000

/-- Drops leading space. -/
def skipSpace : List Char → List Char
  | [] => []
  | c :: cs => if isSpace c then skipSpace cs else c :: cs

/-- The longest run of non-space characters at the head of the input, and what
follows it. -/
def takeToken : List Char → List Char × List Char
  | [] => ([], [])
  | c :: cs => if isSpace c then ([], c :: cs) else ((takeToken cs).1.cons c, (takeToken cs).2)

/-- One call `fmt.Scan(&s)` for a string `s` on standard input: leading space is
skipped; at end of input the call fails and `s` keeps its value; otherwise `s` becomes
the next run of non-space characters, and the space character that ended it (if any)
is consumed with it. -/
def scanString (input : List Char) : Option String × List Char :=
  match skipSpace input with
  | [] => (none, [])
  | c :: cs => (some (String.mk (takeToken (c :: cs)).1), (takeToken (c :: cs)).2.drop 1)

/-! ## `encoding/json`: reading into `configuration` -/

/-- JSON insignificant space. -/
def isJsonSpace (c : Char) : Bool :=
  c == ' ' || c == '\t' || c == '\r' || c == '\n'

/-- Drops leading JSON space. -/
def skipJsonSpace : List Char → List Char
  | [] => []
  | c :: cs => if isJsonSpace c then skipJsonSpace cs else c :: cs

/-- Value of a hexadecimal digit. -/
def hexValue (c : Char) : Option Nat :=
  let n := c.toNat
  if 48 ≤ n ∧ n ≤ 57 then some (n - 48)
  else if 97 ≤ n ∧ n ≤ 102 then some (n - 87)
  else if 65 ≤ n ∧ n ≤ 70 then some (n - 55)
  else none

/-- Value of four hexadecimal digits. -/
def hex4 (a b c d : Char) : Option Nat :=
  match hexValue a, hexValue b, hexValue c, hexValue d with
  | some x, some y, some z, some t => some (((x * 16 + y) * 16 + z) * 16 + t)
  | _, _, _, _ => none

/-- The character a one-letter escape stands for. -/
def simpleEscape (e : Char) : Option Char :=
  if e = '\"' then some '\"'
  else if e = '\\' then some '\\'
  else if e = '/' then some '/'
  else if e = 'b' then some (Char.ofNat 8)
  else if e = 'f' then some (Char.ofNat 12)
  else if e = 'n' then some '\n'
  else if e = 'r' then some '\r'
  else if e = 't' then some '\t'
  else none

/-- The replacement character U+FFFD. -/
def replacementChar : Char := Char.ofNat 0xFFFD

/-- Reads the rest of a string literal whose opening quote has been consumed: the
unescaped contents and the input after the closing quote. A `\u` escape naming a
surrogate is combined with a following low surrogate escape when there is one and
becomes U+FFFD otherwise. Raw control characters and unknown escapes are malformed. -/
def readStringFuel : Nat → List Char → Option (List Char × List Char)
  | 0, _ => none
  | _ + 1, [] => none
  | fuel + 1, c :: cs =>
    if c = '\"' then some ([], cs)
    else if c = '\\' then
      match cs with
      | [] => none
      | e :: cs1 =>
        if e = 'u' then
          match cs1 with
          | h1 :: h2 :: h3 :: h4 :: cs2 =>
            match hex4 h1 h2 h3 h4 with
            | none => none
            | some n =>
              if 0xD800 ≤ n ∧ n < 0xE000 then
                match cs2 with
                | b :: u :: l1 :: l2 :: l3 :: l4 :: cs3 =>
                  match hex4 l1 l2 l3 l4 with
                  | some m =>
                    if b = '\\' ∧ u = 'u' ∧ n < 0xDC00 ∧ 0xDC00 ≤ m ∧ m < 0xE000 then
                      (readStringFuel fuel cs3).map fun p =>
                        (Char.ofNat ((n - 0xD800) * 1024 + (m - 0xDC00) + 0x10000) :: p.1, p.2)
                    else (readStringFuel fuel cs2).map fun p => (replacementChar :: p.1, p.2)
                  | none => (readStringFuel fuel cs2).map fun p => (replacementChar :: p.1, p.2)
                | _ => (readStringFuel fuel cs2).map fun p => (replacementChar :: p.1, p.2)
              else (readStringFuel fuel cs2).map fun p => (Char.ofNat n :: p.1, p.2)
          | _ => none
        else
          match simpleEscape e with
          | none => none
          | some ch => (readStringFuel fuel cs1).map fun p => (ch :: p.1, p.2)
    else if c.toNat < 32 then none
    else (readStringFuel fuel cs).map fun p => (c :: p.1, p.2)

/-- Reads the rest of a string literal; every step consumes a character, so the
length of the input is enough fuel. -/
def readString (cs : List Char) : Option (List Char × List Char) :=
  readStringFuel cs.length cs

/-- Strips a literal from the head of the input. -/
def stripLit : List Char → List Char → Option (List Char)
  | [], cs => some cs
  | _ :: _, [] => none
  | l :: ls, c :: cs => if l = c then stripLit ls cs else none

/-- Decimal digit. -/
def isDigit (c : Char) : Bool := 48 ≤ c.toNat && c.toNat ≤ 57

/-- Drops leading digits. -/
def dropDigits : List Char → List Char
  | [] => []
  | c :: cs => if isDigit c then dropDigits cs else c :: cs

/-- One or more digits. -/
def skipDigits1 : List Char → Option (List Char)
  | [] => none
  | c :: cs => if isDigit c then some (dropDigits cs) else none

/-- The integer part of a number: a lone zero, or a non-zero digit and more digits. -/
def skipInt : List Char → Option (List Char)
  | [] => none
  | c :: cs => if c = '0' then some cs else if isDigit c then some (dropDigits cs) else none

/-- The optional fraction of a number. -/
def skipFrac : List Char → Option (List Char)
  | '.' :: cs => skipDigits1 cs
  | cs => some cs

/-- The optional exponent of a number. -/
def skipExp : List Char → Option (List Char)
  | [] => some []
  | c :: cs =>
    if c = 'e' ∨ c = 'E' then
      match cs with
      | [] => none
      | s :: cs1 => if s = '+' ∨ s = '-' then skipDigits1 cs1 else skipDigits1 (s :: cs1)
    else some (c :: cs)

/-- A JSON number at the head of the input. -/
def skipNumber (cs : List Char) : Option (List Char) :=
  let body := match cs with
    | '-' :: rest => rest
    | other => other
  match skipInt body with
  | none => none
  | some r1 =>
    match skipFrac r1 with
    | none => none
    | some r2 => skipExp r2

/-- What the value scanner is about to read: a value, the elements of an array from
the start of an element, or the members of an object from the start of a member. -/
inductive ScanMode where
  | value
  | elements
  | members
  deriving DecidableEq, Repr

/-- Checks one JSON value (or the rest of an array or object) at the head of the
input and returns what follows it; `none` when the text is malformed. -/
def skipJson : Nat → ScanMode → List Char → Option (List Char)
  | 0, _, _ => none
  | fuel + 1, ScanMode.value, cs =>
    match skipJsonSpace cs with
    | [] => none
    | c :: rest =>
      if c = '\"' then (readString rest).map fun p => p.2
      else if c = '\x7b' then
        match skipJsonSpace rest with
        | '\x7d' :: r => some r
        | _ => skipJson fuel ScanMode.members rest
      else if c = '[' then
        match skipJsonSpace rest with
        | ']' :: r => some r
        | _ => skipJson fuel ScanMode.elements rest
      else if c = 't' then stripLit ['r', 'u', 'e'] rest
      else if c = 'f' then stripLit ['a', 'l', 's', 'e'] rest
      else if c = 'n' then stripLit ['u', 'l', 'l'] rest
      else if c = '-' ∨ isDigit c then skipNumber (c :: rest)
      else none
  | fuel + 1, ScanMode.elements, cs =>
    match skipJson fuel ScanMode.value cs with
    | none => none
    | some r =>
      match skipJsonSpace r with
      | ',' :: r2 => skipJson fuel ScanMode.elements r2
      | ']' :: r2 => some r2
      | _ => none
  | fuel + 1, ScanMode.members, cs =>
    match skipJsonSpace cs with
    | '\"' :: r =>
      match readString r with
      | none => none
      | some (_, r1) =>
        match skipJsonSpace r1 with
        | ':' :: r2 =>
          match skipJson fuel ScanMode.value r2 with
          | none => none
          | some r3 =>
            match skipJsonSpace r3 with
            | ',' :: r4 => skipJson fuel ScanMode.members r4
            | '\x7d' :: r4 => some r4
            | _ => none
        | _ => none
    | _ => none

/-- One JSON value at the head of the input; twice the length of the input and two
more is enough fuel, since a step that consumes nothing is followed by one that does. -/
def skipValue (cs : List Char) : Option (List Char) :=
  skipJson (2 * cs.length + 2) ScanMode.value cs

/-- What a member of the top-level object holds, as far as a string field is
concerned: a string, `null`, or a value of another kind. -/
inductive FieldValue where
  | str (s : String)
  | null
  | mismatch
  deriving DecidableEq, Repr

/-- The value of a member. -/
def readFieldValue (cs : List Char) : Option (FieldValue × List Char) :=
  match skipJsonSpace cs with
  | '\"' :: r => (readString r).map fun p => (FieldValue.str (String.mk p.1), p.2)
  | 'n' :: r => (stripLit ['u', 'l', 'l'] r).map fun r1 => (FieldValue.null, r1)
  | other => (skipValue other).map fun r1 => (FieldValue.mismatch, r1)

/-- The members of the top-level object, from the start of a member to the closing
brace. -/
def readMembers : Nat → List Char → Option (List (String × FieldValue) × List Char)
  | 0, _ => none
  | fuel + 1, cs =>
    match skipJsonSpace cs with
    | '\"' :: r =>
      match readString r with
      | none => none
      | some (k, r1) =>
        match skipJsonSpace r1 with
        | ':' :: r2 =>
          match readFieldValue r2 with
          | none => none
          | some (v, r3) =>
            match skipJsonSpace r3 with
            | ',' :: r4 =>
              (readMembers fuel r4).map fun p => ((String.mk k, v) :: p.1, p.2)
            | '\x7d' :: r4 => some ([(String.mk k, v)], r4)
            | _ => none
        | _ => none
    | _ => none

/-- A whole JSON text, as far as decoding into a struct of strings is concerned. -/
inductive TopValue where
  | null
  | object (ms : List (String × FieldValue))
  | mismatch
  deriving DecidableEq, Repr

/-- Accepts a result when only JSON space follows it. -/
def atEnd {α : Type} (a : α) (rest : List Char) : Option α :=
  if skipJsonSpace rest = [] then some a else none

/-- Reads a whole JSON text; `none` when it is not exactly one well-formed value. -/
def readTop (cs : List Char) : Option TopValue :=
  match skipJsonSpace cs with
  | '\x7b' :: r =>
    match skipJsonSpace r with
    | '\x7d' :: r1 => atEnd (TopValue.object []) r1
    | _ =>
      match readMembers r.length r with
      | none => none
      | some (ms, r1) => atEnd (TopValue.object ms) r1
  | 'n' :: r =>
    match stripLit ['u', 'l', 'l'] r with
    | none => none
    | some r1 => atEnd TopValue.null r1
  | other =>
    match skipValue other with
    | none => none
    | some r1 => atEnd TopValue.mismatch r1

/-- The fields of `configuration`. -/
inductive ConfigField where
  | repo
  | token
  | username
  | defaultBranch
  | defaultPath
  deriving DecidableEq, Repr

/-- The key of each field, from the struct tags (lines 15-19). -/
def configKeys : List (String × ConfigField) :=
  [ ("repo", ConfigField.repo),
    ("token", ConfigField.token),
    ("username", ConfigField.username),
    ("default_branch", ConfigField.defaultBranch),
    ("default_path", ConfigField.defaultPath) ]

/-- Assignment to one field. -/
def configuration.set (c : configuration) (f : ConfigField) (v : String) : configuration :=
  match f with
  | ConfigField.repo => { c with Repo := v }
  | ConfigField.token => { c with Token := v }
  | ConfigField.username => { c with Username := v }
  | ConfigField.defaultBranch => { c with DefaultBranch := v }
  | ConfigField.defaultPath => { c with DefaultPath := v }

/-- Case folding of one character of a key: ASCII letters to upper case, the Kelvin
sign to `K`, the long s to `S`. On keys compared with the ASCII keys of
`configKeys` this decides the same matches as the folding of `encoding/json`. -/
def foldChar (c : Char) : Char :=
  if 97 ≤ c.toNat ∧ c.toNat ≤ 122 then Char.ofNat (c.toNat - 32)
  else if c.toNat = 0x212A then 'K'
  else if c.toNat = 0x17F then 'S'
  else c

/-- Case folding of a key. -/
def foldKey (s : String) : List Char :=
  s.toList.map foldChar

/-- The field a key of the object addresses: the field with exactly that key, or
else the first field whose key matches it up to case. -/
def lookupField (key : String) : Option ConfigField :=
  match configKeys.find? fun p => p.1 == key with
  | some p => some p.2
  | none => (configKeys.find? fun p => foldKey p.1 == foldKey key).map fun p => p.2

/-- Stores the members of an object into a configuration, in order: a string is
assigned to the field its key addresses, `null` and unknown keys are ignored, a value
of another kind for a known key is a type error (the first one is kept) and decoding
goes on. -/
def applyMembers : List (String × FieldValue) → configuration → Option String
    → configuration × Option String
  | [], c, err => (c, err)
  | (k, v) :: rest, c, err =>
    match lookupField k with
    | none => applyMembers rest c err
    | some f =>
      match v with
      | FieldValue.str s => applyMembers rest (c.set f s) err
      | FieldValue.null => applyMembers rest c err
      | FieldValue.mismatch =>
        applyMembers rest c
          (err.orElse fun _ =>
            some ("json: cannot unmarshal value into Go struct field configuration." ++ k
              ++ " of type string"))

/-- The call `json.Unmarshal(data, &config)`: the configuration after the call and
the error it returns. Malformed text leaves the configuration untouched. The error is
present exactly when the call fails; its text stands for the message of
`encoding/json`, whose wording is not reproduced. -/
def unmarshalConfig (data : String) (c : configuration) : configuration × Option String :=
  match readTop data.toList with
  | none => (c, some "invalid JSON text")
  | some TopValue.null => (c, none)
  | some TopValue.mismatch =>
    (c, some "json: cannot unmarshal value into Go value of type main.configuration")
  | some (TopValue.object ms) => applyMembers ms c none

/-! ## `getAPIUrl` (lines 180-182) -/

/-- The method `(c *configuration) getAPIUrl(path string) string`. -/
def configuration.getAPIUrl (c : configuration) (path : String) : String :=
  sprintf "https://api.github.com/repos/%s/%s/contents%s" [c.Username, c.Repo, path]

/-! ## `saveConfig` (lines 226-243) -/

/-- The function `saveConfig(filePath string)`. `json.MarshalIndent` cannot fail on
a struct of strings, so both `err != nil` tests after it are never taken; the result
of `os.Mkdir` is discarded by the source, and its effect is part of `Env.writeErr`. -/
def saveConfig (env : Env) (filePath : String) (w : World) : World :=
  let fileData := w.config.marshalIndent
  match env.writeErr filePath with
  | some err => w.print (sprintf "couldn't write config file, %v\nExiting....\n" [err])
  | none =>
    { w with
      fs := fun p => if p = filePath then Except.ok fileData else w.fs p
      trace := w.trace ++ [Event.fileWritten filePath fileData] }

/-- The event `saveConfig` adds to the trace: the file written, or the report of the
failed write. -/
def saveConfigEvent (env : Env) (filePath : String) (c : configuration) : Event :=
  match env.writeErr filePath with
  | some err => Event.print (sprintf "couldn't write config file, %v\nExiting....\n" [err])
  | none => Event.fileWritten filePath c.marshalIndent

/-! ## `firstTime` (lines 211-224) -/

/-- One `fmt.Scan(&config.X)`: the field is assigned the next token of standard
input, or left as it is when the input has ended. -/
def scanField (f : ConfigField) (w : World) : World :=
  match scanString w.stdin with
  | (some tok, rest) => { w with stdin := rest, config := w.config.set f tok }
  | (none, rest) => { w with stdin := rest }

/-- The function `firstTime(filePath string)`. -/
def firstTime (env : Env) (filePath : String) (w : World) : World :=
  let w := w.emit Event.firstTimeCall
  let w := w.print "Github username: "
  let w := scanField ConfigField.username w
  let w := w.print "Repo name: "
  let w := scanField ConfigField.repo w
  let w := w.print ("Github Personal Token (can be created at https://github.com/settings/tokens"
    ++ " [make sure repo permissions are given])\nToken: ")
  let w := scanField ConfigField.token w
  let w := w.print "Default branch to use: "
  let w := scanField ConfigField.defaultBranch w
  let w := w.print "Default directory to use (For root use \'/\'): "
  let w := scanField ConfigField.defaultPath w
  saveConfig env filePath w

/-! ## `getConfig` (lines 184-209) -/

/-- The statement `file, err = ioutil.ReadFile(configFile)` (line 194): the variable
`file` receives the contents, or nothing when the read fails. -/
def readConfigFile (configFile : String) (w : World) : World × Option String :=
  match w.fs configFile with
  | Except.ok data => ({ w with file := data }, none)
  | Except.error err => ({ w with file := "" }, some err)

/-- Lines 196-199: after a failed read, the first-run notice and `firstTime`. -/
def onReadError (env : Env) (configFile : String) (err : Option String) (w : World) : World :=
  match err with
  | some _ =>
    firstTime env configFile
      (w.print (sprintf "Looks like this is your first time .Let's create a config file.\n" []))
  | none => w

/-- Lines 201-206: when the token in memory is empty, the variable `file` is decoded
into `config`; when decoding fails, the corruption warning and `firstTime`. -/
def decodeIfNoToken (env : Env) (configFile : String) (w : World) : World :=
  if w.config.Token = "" then
    match unmarshalConfig w.file w.config with
    | (c, none) => { w with config := c }
    | (c, some err) =>
      firstTime env configFile
        (({ w with config := c } : World).print
          (sprintf "config file is corrupt, %v\nLet's create a new one\n" [err]))
  else w

/-- The function `getConfig() string`. -/
def getConfig (env : Env) (w : World) : Outcome String :=
  match env.userConfigDir with
  | Except.error err =>
    Outcome.exit (w.print (sprintf "couldn't get user config path, %v\n" [err])) 1
  | Except.ok userConfig =>
    let configFile := sprintf "%s/blog-tool/config.json" [userConfig]
    let r := readConfigFile configFile w
    let w := onReadError env configFile r.2 r.1
    let w := decodeIfNoToken env configFile w
    Outcome.ok w configFile

/-! ## The push command (lines 106-176) -/

/-- Values of the flags of the `push` flag set after `pushCommand.Parse`: `-r`, `-u`,
`-t`, `-path`, `-b`, `-sha`, `-m`. A flag that is not given is the empty string. -/
structure PushFlags where
  customRepo : String
  customUsername : String
  customToken : String
  remotePath : String
  branch : String
  sha : String
  message : String
  deriving DecidableEq, Repr

/-- Lines 110-118: the overrides of repository, user name and token. -/
def applyCredentialFlags (flags : PushFlags) (c : configuration) : configuration :=
  let c := if flags.customRepo ≠ "" then { c with Repo := flags.customRepo } else c
  let c := if flags.customUsername ≠ "" then { c with Username := flags.customUsername } else c
  if flags.customToken ≠ "" then { c with Token := flags.customToken } else c

/-- Lines 119-124: the branch. -/
def resolveBranch (flags : PushFlags) (rb : requestFormat) (w : World) : World × requestFormat :=
  if flags.branch ≠ "" then (w, { rb with Branch := flags.branch })
  else (w.print (sprintln ["Using default branch"]), { rb with Branch := w.config.DefaultBranch })

/-- Lines 125-127: the blob SHA. -/
def resolveSha (flags : PushFlags) (rb : requestFormat) : requestFormat :=
  if flags.sha ≠ "" then { rb with SHA := flags.sha } else rb

/-- Lines 128-133: the remote path; `lastArg` is `os.Args[len(os.Args)-1]`. -/
def resolvePath (flags : PushFlags) (lastArg : String) (rb : requestFormat) (w : World) :
    World × requestFormat :=
  if flags.remotePath ≠ "" then (w, { rb with Path := flags.remotePath })
  else
    (w.print (sprintln ["Path not provided, using default directory..."]),
      { rb with Path := sprintf "%s%s" [w.config.DefaultPath, lastArg] })

/-- Lines 134-139: the commit message. -/
def resolveMessage (flags : PushFlags) (fileName : String) (rb : requestFormat) (w : World) :
    World × requestFormat :=
  if flags.message = "" then
    (w.print (sprintln ["Message not provided. Using ", fileName]), { rb with M := fileName })
  else (w, { rb with M := flags.message })

/-- Lines 109-139: from the flags and the loaded configuration to the effective
configuration (in the world) and the request record. -/
def pushResolve (flags : PushFlags) (fileName : String) (w : World) : World × requestFormat :=
  let rb := requestFormat.zero
  let w := { w with config := applyCredentialFlags flags w.config }
  let r := resolveBranch flags rb w
  let rb := resolveSha flags r.2
  let r := resolvePath flags fileName rb r.1
  resolveMessage flags fileName r.2 r.1

/-- Lines 153-159: the request built from the effective configuration and the
request record. -/
def buildRequest (c : configuration) (rb : requestFormat) : Request :=
  { method := "PUT"
    url := c.getAPIUrl rb.Path
    body := rb.marshal
    accept := "application/vnd.github.v3+json"
    authUser := c.Username
    authPassword := c.Token }

/-- Lines 169-175: what the push command does with a response. -/
def handleResponse (status : Int) (respBody : String) (w : World) : Outcome Unit :=
  if status > 250 then
    Outcome.exit (w.print (sprintf "error received from github, %v\n" [respBody])) 1
  else Outcome.exit (w.print (sprintln ["success"])) 0

/-- Lines 141-175: reading the local file, building and sending the request, and
handling the response. `json.Marshal` cannot fail on a struct of strings, so the test
of line 149 is never taken. -/
def pushSend (env : Env) (fileName : String) (rb : requestFormat) (w : World) : Outcome Unit :=
  match w.fs fileName with
  | Except.error err =>
    Outcome.exit (w.print (sprintf "couldn't read file, %v\n\nExiting...\n" [err])) 1
  | Except.ok fileContent =>
    let rb := { rb with C := base64Encode fileContent }
    let url := w.config.getAPIUrl rb.Path
    match env.urlErr url with
    | some err => Outcome.panicked w err
    | none =>
      let req := buildRequest w.config rb
      let w := w.emit (Event.requestBuilt req)
      let w := w.emit (Event.requestSent req)
      match env.roundTrip req with
      | Except.error err =>
        Outcome.exit (w.print (sprintf "couldn't send request, %v\n" [err])) 1
      | Except.ok (status, respBody) => handleResponse status respBody w

/-- The body of `if pushCommand.Parsed()` (lines 106-176); `args` is `os.Args`. -/
def pushCommand (env : Env) (flags : PushFlags) (args : List String) (w : World) : Outcome Unit :=
  match getConfig env w with
  | Outcome.exit w1 code => Outcome.exit w1 code
  | Outcome.panicked w1 msg => Outcome.panicked w1 msg
  | Outcome.ok w1 _ =>
    let fileName := args.getLastD ""
    let r := pushResolve flags fileName w1
    pushSend env fileName r.2 r.1

/-! ## The other commands that load the configuration -/

/-- Lines 56-61: the program run without arguments. -/
def noArgsCommand (env : Env) (w : World) : Outcome Unit :=
  match getConfig env w with
  | Outcome.exit w1 code => Outcome.exit w1 code
  | Outcome.panicked w1 msg => Outcome.panicked w1 msg
  | Outcome.ok w1 _ => Outcome.exit ((w1.emit (Event.usage "push")).emit (Event.usage "config")) 0

/-- Lines 87-92: `config -show`. -/
def showConfigCommand (env : Env) (w : World) : Outcome Unit :=
  match getConfig env w with
  | Outcome.exit w1 code => Outcome.exit w1 code
  | Outcome.panicked w1 msg => Outcome.panicked w1 msg
  | Outcome.ok w1 _ => Outcome.exit (w1.print (sprintln [w1.config.marshalIndent])) 0

/-- A process that has just started: nothing printed, `config` and `file` at their
zero values. -/
def World.fresh (fs : String → Except String String) (stdin : List Char) : World :=
  { fs := fs, stdin := stdin, config := configuration.zero, file := "", trace := [] }

/-- The request the push command builds from the flags and the loaded configuration
when the local file holds `content` (lines 109-159). -/
def pushRequest (flags : PushFlags) (fileName content : String) (w : World) : Request :=
  buildRequest (pushResolve flags fileName w).1.config
    { (pushResolve flags fileName w).2 with C := base64Encode content }

/-! ## The base name of the specification -/

/-- A path without its trailing slashes. -/
def dropTrailingSlashes (cs : List Char) : List Char :=
  (cs.reverse.dropWhile fun c => c == '/').reverse

/-- The characters after the last slash. -/
def lastComponent (cs : List Char) : List Char :=
  (cs.reverse.takeWhile fun c => c != '/').reverse

/-- The base name of a file name in the sense of the specification, its final path
component (the convention of `filepath.Base`: trailing slashes are dropped first, the
empty name gives a dot, and a name made of slashes gives one slash). The program does
not compute it; the definition states what the specification asks for. -/
def specBaseName (fileName : String) : String :=
  if fileName = "" then "."
  else if dropTrailingSlashes fileName.toList = [] then "/"
  else String.mk (lastComponent (dropTrailingSlashes fileName.toList))

/-! ## A concrete run, used to instantiate the statements below -/

/-- Text of a configuration file. -/
def demoConfigText : String :=
  "\x7b\"repo\":\"blog\",\"token\":\"tok\",\"username\":\"alice\","
    ++ "\"default_branch\":\"main\",\"default_path\":\"/posts/\"\x7d"

/-- The configuration that text holds. -/
def demoConfig : configuration := ⟨"blog", "tok", "alice", "main", "/posts/"⟩

/-- The path of the configuration file in the concrete run. -/
def demoConfigPath : String := "/home/u/.config/blog-tool/config.json"

/-- A file system with the configuration file and one local file `a.md`. -/
def demoFs : String → Except String String := fun p =>
  if p = demoConfigPath then Except.ok demoConfigText
  else if p = "a.md" then Except.ok "hello"
  else Except.error "no such file or directory"

/-- An environment in which every write and every URL is accepted and the network
answers every request with the given status. -/
def demoEnv (status : Int) : Env :=
  { userConfigDir := Except.ok "/home/u/.config"
    writeErr := fun _ => none
    urlErr := fun _ => none
    roundTrip := fun _ => Except.ok (status, "response") }

/-- The world after `getConfig` in a fresh process on `demoFs`. -/
def demoLoaded : World :=
  { fs := demoFs, stdin := [], config := demoConfig, file := demoConfigText, trace := [] }

/-- Text of a well-formed configuration file whose token is empty. -/
def demoTokenlessText : String :=
  "\x7b\"repo\":\"blog\",\"token\":\"\",\"username\":\"alice\"\x7d"

/-- A file system whose configuration file holds `demoTokenlessText`. -/
def demoTokenlessFs : String → Except String String := fun p =>
  if p = demoConfigPath then Except.ok demoTokenlessText
  else Except.error "no such file or directory"

/-- Text that is not well-formed JSON. -/
def demoCorruptText : String := "\x7b\"repo\": \"blog\", \"token\""

/-- A file system whose configuration file holds `demoCorruptText`. -/
def demoCorruptFs : String → Except String String := fun p =>
  if p = demoConfigPath then Except.ok demoCorruptText
  else Except.error "no such file or directory"

/-- A file system without any file. -/
def demoEmptyFs : String → Except String String := fun _ =>
  Except.error "no such file or directory"

/-- Standard input holding the five answers of the interactive creation. -/
def demoAnswers : List Char := "alice blog tok main /\n".toList

/-- Every flag of the push command given. -/
def demoAllFlags : PushFlags :=
  ⟨"site", "bob", "secret", "/docs/a.md", "dev", "abc123", "update"⟩

/-- No flag of the push command given. -/
def demoNoFlags : PushFlags := ⟨"", "", "", "", "", "", ""⟩

/-- Branch, path and message given; repository, user name and token not given. -/
def demoSomeFlags : PushFlags := ⟨"", "", "", "/docs/a.md", "dev", "", "update"⟩

/-! ## Lemmas on formatting and traces -/

theorem sprintfChars_lit (c : Char) (h : c ≠ '%') (rest : List Char) (args : List String) :
    sprintfChars (c :: rest) args = c :: sprintfChars rest args := by
  cases rest <;> cases args <;> simp [sprintfChars, h]

theorem getAPIUrl_eq (c : configuration) (path : String) :
    c.getAPIUrl path
      = "https://api.github.com/repos/" ++ c.Username ++ "/" ++ c.Repo ++ "/contents" ++ path := by
  apply String.ext
  simp only [configuration.getAPIUrl, sprintf, String.data_append]
  show sprintfChars ("https://api.github.com/repos/%s/%s/contents%s".toList) _ = _
  simp [sprintfChars, String.toList]

theorem sprintf_pair (a b : String) : sprintf "%s%s" [a, b] = a ++ b := by
  apply String.ext
  simp only [sprintf, String.data_append]
  show sprintfChars ("%s%s".toList) _ = _
  simp [sprintfChars, String.toList]

theorem sprintf_github_error (body : String) :
    sprintf "error received from github, %v\n" [body]
      = "error received from github, " ++ body ++ "\n" := by
  apply String.ext
  simp only [sprintf, String.data_append]
  show sprintfChars ("error received from github, %v\n".toList) _ = _
  simp [sprintfChars, String.toList]

theorem sprintln_two (a b : String) : sprintln [a, b] = a ++ " " ++ b ++ "\n" := by
  simp [sprintln, String.intercalate, String.intercalate.go]

theorem printed_append (l1 l2 : List Event) : printed (l1 ++ l2) = printed l1 ++ printed l2 := by
  induction l1 with
  | nil => rfl
  | cons e l ih => cases e <;> simp [printed, ih]

theorem sentRequests_append (l1 l2 : List Event) :
    sentRequests (l1 ++ l2) = sentRequests l1 ++ sentRequests l2 := by
  induction l1 with
  | nil => rfl
  | cons e l ih => cases e <;> simp [sentRequests, ih]

theorem builtRequests_append (l1 l2 : List Event) :
    builtRequests (l1 ++ l2) = builtRequests l1 ++ builtRequests l2 := by
  induction l1 with
  | nil => rfl
  | cons e l ih => cases e <;> simp [builtRequests, ih]

theorem firstTimeCalls_append (l1 l2 : List Event) :
    firstTimeCalls (l1 ++ l2) = firstTimeCalls l1 + firstTimeCalls l2 := by
  induction l1 with
  | nil => simp [firstTimeCalls]
  | cons e l ih =>
    cases e <;> simp [firstTimeCalls, ih]
    omega

theorem members_eq (r : requestFormat) :
    r.members = [("message", r.M), ("content", r.C)]
      ++ (if r.SHA = "" then [] else [("sha", r.SHA)])
      ++ (if r.Branch = "" then [] else [("branch", r.Branch)]) := by
  simp only [requestFormat.members, requestFormat.fields, marshalMembers]
  by_cases h1 : r.SHA = "" <;> by_cases h2 : r.Branch = "" <;> simp [List.filterMap, h1, h2]

/-! ## Lemmas on the push command -/

theorem scanField_trace (f : ConfigField) (w : World) : (scanField f w).trace = w.trace := by
  unfold scanField
  split <;> rfl

theorem saveConfig_requests (env : Env) (p : String) (w : World) :
    sentRequests (saveConfig env p w).trace = sentRequests w.trace
      ∧ builtRequests (saveConfig env p w).trace = builtRequests w.trace
      ∧ firstTimeCalls (saveConfig env p w).trace = firstTimeCalls w.trace := by
  unfold saveConfig
  split <;>
    simp [World.print, sentRequests_append, builtRequests_append, firstTimeCalls_append,
      sentRequests, builtRequests, firstTimeCalls]

theorem firstTime_requests (env : Env) (p : String) (w : World) :
    sentRequests (firstTime env p w).trace = sentRequests w.trace
      ∧ builtRequests (firstTime env p w).trace = builtRequests w.trace
      ∧ firstTimeCalls (firstTime env p w).trace = firstTimeCalls w.trace + 1 := by
  unfold firstTime
  simp [saveConfig_requests, scanField_trace, World.print, World.emit, sentRequests_append,
    builtRequests_append, firstTimeCalls_append, sentRequests, builtRequests, firstTimeCalls]

theorem readConfigFile_trace (p : String) (w : World) :
    (readConfigFile p w).1.trace = w.trace := by
  unfold readConfigFile
  split <;> rfl

theorem onReadError_requests (env : Env) (p : String) (err : Option String) (w : World) :
    sentRequests (onReadError env p err w).trace = sentRequests w.trace
      ∧ builtRequests (onReadError env p err w).trace = builtRequests w.trace := by
  unfold onReadError
  split
  · simp [firstTime_requests, World.print, sentRequests_append, builtRequests_append,
      sentRequests, builtRequests]
  · exact ⟨rfl, rfl⟩

theorem decodeIfNoToken_requests (env : Env) (p : String) (w : World) :
    sentRequests (decodeIfNoToken env p w).trace = sentRequests w.trace
      ∧ builtRequests (decodeIfNoToken env p w).trace = builtRequests w.trace := by
  unfold decodeIfNoToken
  split
  · split
    · exact ⟨rfl, rfl⟩
    · simp [firstTime_requests, World.print, sentRequests_append, builtRequests_append,
        sentRequests, builtRequests]
  · exact ⟨rfl, rfl⟩

theorem getConfig_requests (env : Env) (w0 w : World) (cf : String)
    (h : getConfig env w0 = Outcome.ok w cf) :
    sentRequests w.trace = sentRequests w0.trace
      ∧ builtRequests w.trace = builtRequests w0.trace := by
  unfold getConfig at h
  split at h
  · cases h
  · simp only [Outcome.ok.injEq] at h
    obtain ⟨h, _⟩ := h
    subst h
    simp [decodeIfNoToken_requests, onReadError_requests, readConfigFile_trace]

theorem pushResolve_fs (flags : PushFlags) (fileName : String) (w : World) :
    (pushResolve flags fileName w).1.fs = w.fs := by
  unfold pushResolve resolveMessage resolvePath resolveBranch
  split <;> split <;> split <;> rfl

theorem pushResolve_config (flags : PushFlags) (fileName : String) (w : World) :
    (pushResolve flags fileName w).1.config = applyCredentialFlags flags w.config := by
  unfold pushResolve resolveMessage resolvePath resolveBranch
  split <;> split <;> split <;> rfl

theorem pushResolve_printed (flags : PushFlags) (fileName : String) (w : World) :
    printed (pushResolve flags fileName w).1.trace
      = printed w.trace
        ++ (if flags.branch = "" then ["Using default branch\n"] else [])
        ++ (if flags.remotePath = "" then ["Path not provided, using default directory...\n"]
            else [])
        ++ (if flags.message = "" then ["Message not provided. Using  " ++ fileName ++ "\n"]
            else []) := by
  have e1 : sprintln ["Using default branch"] = "Using default branch\n" := by decide
  have e2 : sprintln ["Path not provided, using default directory..."]
      = "Path not provided, using default directory...\n" := by decide
  have e3 : sprintln ["Message not provided. Using ", fileName]
      = "Message not provided. Using  " ++ fileName ++ "\n" := by
    rw [sprintln_two]
    apply String.ext
    simp [String.data_append]
  unfold pushResolve resolveMessage resolvePath resolveBranch
  by_cases hb : flags.branch = "" <;> by_cases hp : flags.remotePath = ""
    <;> by_cases hm : flags.message = ""
    <;> simp [hb, hp, hm, World.print, printed_append, printed, e1, e2, e3]

theorem applyCredentialFlags_defaults (flags : PushFlags) (c : configuration) :
    (applyCredentialFlags flags c).DefaultBranch = c.DefaultBranch
      ∧ (applyCredentialFlags flags c).DefaultPath = c.DefaultPath := by
  unfold applyCredentialFlags
  split_ifs <;> exact ⟨rfl, rfl⟩

theorem pushResolve_record (flags : PushFlags) (fileName : String) (w : World) :
    (pushResolve flags fileName w).2
      = { M := if flags.message = "" then fileName else flags.message
          C := ""
          SHA := flags.sha
          Branch := if flags.branch ≠ "" then flags.branch else w.config.DefaultBranch
          Path := if flags.remotePath ≠ "" then flags.remotePath
                  else w.config.DefaultPath ++ fileName } := by
  unfold pushResolve resolveMessage resolvePath resolveBranch resolveSha requestFormat.zero
  by_cases hb : flags.branch = "" <;> by_cases hp : flags.remotePath = ""
    <;> by_cases hm : flags.message = "" <;> by_cases hs : flags.sha = ""
    <;> simp [hb, hp, hm, hs, sprintf_pair, World.print, applyCredentialFlags_defaults]

theorem pushCommand_of_getConfig (env : Env) (flags : PushFlags) (args : List String)
    (w0 w : World) (cf : String) (h : getConfig env w0 = Outcome.ok w cf) :
    pushCommand env flags args w0
      = pushSend env (args.getLastD "") (pushResolve flags (args.getLastD "") w).2
          (pushResolve flags (args.getLastD "") w).1 := by
  simp [pushCommand, h]

theorem pushSend_of_read (env : Env) (fileName content : String) (rb : requestFormat) (w : World)
    (hfile : w.fs fileName = Except.ok content)
    (hurl : env.urlErr (w.config.getAPIUrl rb.Path) = none) :
    pushSend env fileName rb w
      = match env.roundTrip (buildRequest w.config { rb with C := base64Encode content }) with
        | Except.error err =>
          Outcome.exit
            (((w.emit (Event.requestBuilt
                (buildRequest w.config { rb with C := base64Encode content }))).emit
              (Event.requestSent
                (buildRequest w.config { rb with C := base64Encode content }))).print
              (sprintf "couldn't send request, %v\n" [err])) 1
        | Except.ok (status, respBody) =>
          handleResponse status respBody
            ((w.emit (Event.requestBuilt
                (buildRequest w.config { rb with C := base64Encode content }))).emit
              (Event.requestSent
                (buildRequest w.config { rb with C := base64Encode content }))) := by
  simp only [pushSend, hfile, hurl]

theorem handleResponse_trace (status : Int) (respBody : String) (w : World) :
    ∃ t, (handleResponse status respBody w).world.trace = w.trace ++ [Event.print t] := by
  unfold handleResponse
  split
  · exact ⟨_, rfl⟩
  · exact ⟨_, rfl⟩


theorem pushResolve_requests (flags : PushFlags) (fileName : String) (w : World) :
    sentRequests (pushResolve flags fileName w).1.trace = sentRequests w.trace
      ∧ builtRequests (pushResolve flags fileName w).1.trace = builtRequests w.trace := by
  unfold pushResolve resolveMessage resolvePath resolveBranch
  by_cases hb : flags.branch = "" <;> by_cases hp : flags.remotePath = ""
    <;> by_cases hm : flags.message = ""
    <;> simp [hb, hp, hm, World.print, sentRequests_append, builtRequests_append,
      sentRequests, builtRequests]

theorem applyCredentialFlags_eq (flags : PushFlags) (c : configuration) :
    applyCredentialFlags flags c
      = { Repo := if flags.customRepo ≠ "" then flags.customRepo else c.Repo
          Token := if flags.customToken ≠ "" then flags.customToken else c.Token
          Username := if flags.customUsername ≠ "" then flags.customUsername else c.Username
          DefaultBranch := c.DefaultBranch
          DefaultPath := c.DefaultPath } := by
  unfold applyCredentialFlags
  by_cases h1 : flags.customRepo = "" <;> by_cases h2 : flags.customUsername = ""
    <;> by_cases h3 : flags.customToken = "" <;> simp [h1, h2, h3]

theorem specBaseName_plain (fileName : String) (hne : fileName ≠ "")
    (hslash : '/' ∉ fileName.toList) : specBaseName fileName = fileName := by
  have hrev : ∀ c ∈ fileName.toList.reverse, c ≠ '/' := by
    intro c hc h
    rw [List.mem_reverse] at hc
    exact hslash (h ▸ hc)
  have hdrop : (fileName.toList.reverse.dropWhile fun c => c == '/') = fileName.toList.reverse := by
    cases hl : fileName.toList.reverse with
    | nil => rfl
    | cons a l =>
      have : a ≠ '/' := hrev a (by rw [hl]; exact List.mem_cons_self a l)
      have hb : (a == '/') = false := by simpa using this
      simp [List.dropWhile, hb]
  have htake : (fileName.toList.reverse.takeWhile fun c => c != '/') = fileName.toList.reverse := by
    rw [List.takeWhile_eq_self_iff]
    intro c hc
    simpa using hrev c hc
  have hnil : fileName.toList ≠ [] := by
    intro h
    apply hne
    apply String.ext
    simpa using h
  unfold specBaseName
  simp only [hne, if_false, dropTrailingSlashes, lastComponent, hdrop, List.reverse_reverse, hnil,
    htake]
  rfl


/-! ## Lemmas on `encoding/json`: reading back what was written -/

theorem hexValue_hexDigit (k : Nat) (h : k < 16) : hexValue (hexDigit k) = some k := by
  interval_cases k <;> decide

theorem hex4_low (n : Nat) (h : n < 256) :
    hex4 '0' '0' (hexDigit (n / 16)) (hexDigit (n % 16)) = some n := by
  have h1 : hexValue (hexDigit (n / 16)) = some (n / 16) := hexValue_hexDigit _ (by omega)
  have h2 : hexValue (hexDigit (n % 16)) = some (n % 16) := hexValue_hexDigit _ (by omega)
  have h0 : hexValue '0' = some 0 := by decide
  simp only [hex4, h0, h1, h2]
  congr 1
  omega

theorem readStringFuel_escapeChar (c : Char) (tail : List Char) (f : Nat) :
    readStringFuel (f + 1) (escapeChar c ++ tail)
      = (readStringFuel f tail).map fun p => (c :: p.1, p.2) := by
  unfold escapeChar
  split_ifs with h1 h2 h3 h4 h5 h6 h7
  · rcases h1 with h | h <;> subst h <;> simp [readStringFuel, simpleEscape]
  · subst h2; simp [readStringFuel, simpleEscape]
  · subst h3; simp [readStringFuel, simpleEscape]
  · subst h4; simp [readStringFuel, simpleEscape]
  · have hlt : c.toNat < 256 := by
      rcases h5 with h | h | h | h
      · omega
      · subst h; decide
      · subst h; decide
      · subst h; decide
    have hx := hex4_low c.toNat hlt
    simp only [List.cons_append, List.nil_append, readStringFuel]
    simp [hx, Char.ofNat_toNat]
    intro h
    omega
  · have hc : c = Char.ofNat 0x2028 := by rw [← h6, Char.ofNat_toNat]
    subst hc
    simp [readStringFuel, hex4, hexValue]
  · have hc : c = Char.ofNat 0x2029 := by rw [← h7, Char.ofNat_toNat]
    subst hc
    simp [readStringFuel, hex4, hexValue]
  · have a1 : c ≠ '\"' := fun h => h1 (Or.inr h)
    have a2 : c ≠ '\\' := fun h => h1 (Or.inl h)
    have a3 : ¬ c.toNat < 32 := fun h => h5 (Or.inl h)
    simp [readStringFuel, a1, a2, a3]

theorem escapeChar_length_pos (c : Char) : 0 < (escapeChar c).length := by
  unfold escapeChar
  split_ifs <;> simp

theorem readStringFuel_escapeChars (cs rest : List Char) :
    ∀ fuel, (escapeChars cs).length < fuel →
      readStringFuel fuel (escapeChars cs ++ '\"' :: rest) = some (cs, rest) := by
  induction cs with
  | nil =>
    intro fuel h
    cases fuel with
    | zero => simp at h
    | succ f => simp [escapeChars, readStringFuel]
  | cons c cs ih =>
    intro fuel h
    cases fuel with
    | zero => simp at h
    | succ f =>
      have hsplit : escapeChars (c :: cs) = escapeChar c ++ escapeChars cs := by
        simp [escapeChars]
      have hpos := escapeChar_length_pos c
      rw [hsplit, List.length_append] at h
      rw [hsplit, List.append_assoc, readStringFuel_escapeChar, ih f (by omega)]
      rfl

theorem readString_escapeChars (cs rest : List Char) :
    readString (escapeChars cs ++ '\"' :: rest) = some (cs, rest) := by
  unfold readString
  apply readStringFuel_escapeChars
  simp

theorem skipJsonSpace_lead (pre : List Char) (c : Char) (rest : List Char)
    (hpre : ∀ x ∈ pre, isJsonSpace x = true) (hc : isJsonSpace c = false) :
    skipJsonSpace (pre ++ c :: rest) = c :: rest := by
  induction pre with
  | nil => simp [skipJsonSpace, hc]
  | cons a l ih =>
    have ha : isJsonSpace a = true := hpre a (List.mem_cons_self a l)
    have hl : ∀ x ∈ l, isJsonSpace x = true := fun x hx => hpre x (List.mem_cons_of_mem a hx)
    simp [skipJsonSpace, ha, ih hl]

theorem skipJsonSpace_keep (c : Char) (rest : List Char) (hc : isJsonSpace c = false) :
    skipJsonSpace (c :: rest) = c :: rest :=
  skipJsonSpace_lead [] c rest (by simp) hc

theorem readFieldValue_string (v : String) (tail : List Char) :
    readFieldValue (' ' :: quoteJson v ++ tail) = some (FieldValue.str v, tail) := by
  have h1 : skipJsonSpace (' ' :: quoteJson v ++ tail)
      = '\"' :: (escapeChars v.toList ++ '\"' :: tail) := by
    have := skipJsonSpace_lead [' '] '\"' (escapeChars v.toList ++ '\"' :: tail)
      (by simp [isJsonSpace]) (by decide)
    simpa [quoteJson] using this
  unfold readFieldValue
  rw [h1]
  simp [readString_escapeChars]

theorem readMembers_member (indent : List Char)
    (hindent : ∀ x ∈ indent, isJsonSpace x = true) (k v : String) (tail : List Char) (f : Nat) :
    readMembers (f + 1) ('\n' :: indent ++ quoteJson k ++ ':' :: ' ' :: quoteJson v ++ tail)
      = match skipJsonSpace tail with
        | ',' :: r4 => (readMembers f r4).map fun p => ((k, FieldValue.str v) :: p.1, p.2)
        | '\x7d' :: r4 => some ([(k, FieldValue.str v)], r4)
        | _ => none := by
  have hlead : ∀ x ∈ '\n' :: indent, isJsonSpace x = true := by
    intro x hx
    rcases List.mem_cons.1 hx with h | h
    · subst h; decide
    · exact hindent x h
  have h1 : skipJsonSpace ('\n' :: indent ++ quoteJson k ++ ':' :: ' ' :: quoteJson v ++ tail)
      = '\"' :: (escapeChars k.toList ++ '\"' :: (':' :: (' ' :: quoteJson v ++ tail))) := by
    have := skipJsonSpace_lead ('\n' :: indent) '\"'
      (escapeChars k.toList ++ '\"' :: (':' :: (' ' :: quoteJson v ++ tail))) hlead (by decide)
    simpa [quoteJson] using this
  have h2 : skipJsonSpace (':' :: (' ' :: quoteJson v ++ tail))
      = ':' :: (' ' :: quoteJson v ++ tail) := skipJsonSpace_keep _ _ (by decide)
  rw [readMembers, h1]
  simp only [readString_escapeChars, h2, readFieldValue_string]
  rfl

/-- Reading back the members `json.MarshalIndent` writes. -/
theorem readMembers_render (indent : List Char) (hindent : ∀ x ∈ indent, isJsonSpace x = true)
    (ms : List (String × String)) (hms : ms ≠ []) (rest : List Char) :
    ∀ fuel, ms.length ≤ fuel →
      readMembers fuel (renderMembersIndent indent ms ++ '\x7d' :: rest)
        = some (ms.map fun kv => (kv.1, FieldValue.str kv.2), rest) := by
  induction ms with
  | nil => exact absurd rfl hms
  | cons kv ms ih =>
    intro fuel hfuel
    cases fuel with
    | zero => simp at hfuel
    | succ f =>
      cases ms with
      | nil =>
        have h3 : skipJsonSpace ('\n' :: '\x7d' :: rest) = '\x7d' :: rest :=
          skipJsonSpace_lead ['\n'] '\x7d' rest (by simp [isJsonSpace]) (by decide)
        have := readMembers_member indent hindent kv.1 kv.2 ('\n' :: '\x7d' :: rest) f
        rw [h3] at this
        simpa [renderMembersIndent] using this
      | cons kv2 ms2 =>
        have h3 : skipJsonSpace (',' :: (renderMembersIndent indent (kv2 :: ms2)
            ++ '\x7d' :: rest))
            = ',' :: (renderMembersIndent indent (kv2 :: ms2) ++ '\x7d' :: rest) :=
          skipJsonSpace_keep _ _ (by decide)
        have := readMembers_member indent hindent kv.1 kv.2
          (',' :: (renderMembersIndent indent (kv2 :: ms2) ++ '\x7d' :: rest)) f
        rw [h3] at this
        have hrec := ih (by simp) f (by simpa using hfuel)
        simp only [hrec] at this
        simpa [renderMembersIndent] using this

theorem renderMembersIndent_head (indent : List Char) (ms : List (String × String))
    (hms : ms ≠ []) :
    ∃ tail, renderMembersIndent indent ms = '\n' :: indent ++ '\"' :: tail := by
  cases ms with
  | nil => exact absurd rfl hms
  | cons kv ms =>
    cases ms with
    | nil => exact ⟨_, by simp [renderMembersIndent, quoteJson]; rfl⟩
    | cons kv2 ms2 => exact ⟨_, by simp [renderMembersIndent, quoteJson]; rfl⟩

theorem renderMembersIndent_length (indent : List Char) (ms : List (String × String)) :
    ms.length ≤ (renderMembersIndent indent ms).length := by
  induction ms with
  | nil => simp
  | cons kv ms ih =>
    cases ms with
    | nil => simp [renderMembersIndent]
    | cons kv2 ms2 =>
      simp only [renderMembersIndent, List.length_cons, List.length_append] at ih ⊢
      omega

theorem readTop_renderObjectIndent (indent : String)
    (hindent : ∀ x ∈ indent.toList, isJsonSpace x = true)
    (ms : List (String × String)) (hms : ms ≠ []) :
    readTop (renderObjectIndent indent ms).toList
      = some (TopValue.object (ms.map fun kv => (kv.1, FieldValue.str kv.2))) := by
  obtain ⟨tail, htail⟩ := renderMembersIndent_head indent.toList ms hms
  have hlead : ∀ x ∈ '\n' :: indent.toList, isJsonSpace x = true := by
    intro x hx
    rcases List.mem_cons.1 hx with h | h
    · subst h; decide
    · exact hindent x h
  have h0 : (renderObjectIndent indent ms).toList
      = '\x7b' :: (renderMembersIndent indent.toList ms ++ ['\x7d']) := rfl
  have h1 : skipJsonSpace ('\x7b' :: (renderMembersIndent indent.toList ms ++ ['\x7d']))
      = '\x7b' :: (renderMembersIndent indent.toList ms ++ ['\x7d']) :=
    skipJsonSpace_keep _ _ (by decide)
  have h2 : skipJsonSpace (renderMembersIndent indent.toList ms ++ ['\x7d'])
      = '\"' :: (tail ++ ['\x7d']) := by
    have := skipJsonSpace_lead ('\n' :: indent.toList) '\"' (tail ++ ['\x7d']) hlead (by decide)
    rw [htail]
    simpa using this
  have h3 := readMembers_render indent.toList hindent ms hms []
    (renderMembersIndent indent.toList ms ++ ['\x7d']).length
    (by have := renderMembersIndent_length indent.toList ms
        simp only [List.length_append]
        omega)
  rw [h0, readTop, h1]
  simp only [h2, h3]
  simp [atEnd, skipJsonSpace]

/-- Decoding the text `json.MarshalIndent` writes for a configuration gives the
configuration back, whatever the configuration decoded into held. -/
theorem unmarshalConfig_marshalIndent (c c0 : configuration) :
    unmarshalConfig c.marshalIndent c0 = (c, none) := by
  have h1 : lookupField "repo" = some ConfigField.repo := by decide
  have h2 : lookupField "token" = some ConfigField.token := by decide
  have h3 : lookupField "username" = some ConfigField.username := by decide
  have h4 : lookupField "default_branch" = some ConfigField.defaultBranch := by decide
  have h5 : lookupField "default_path" = some ConfigField.defaultPath := by decide
  have hind : ∀ x ∈ ("    " : String).toList, isJsonSpace x = true := by decide
  have hms : marshalMembers c.fields
      = [("repo", c.Repo), ("token", c.Token), ("username", c.Username),
          ("default_branch", c.DefaultBranch), ("default_path", c.DefaultPath)] := by
    simp [marshalMembers, configuration.fields, List.filterMap]
  unfold unmarshalConfig configuration.marshalIndent
  rw [readTop_renderObjectIndent "    " hind _ (by rw [hms]; simp), hms]
  simp [applyMembers, h1, h2, h3, h4, h5, configuration.set]


theorem readFieldValue_compact (v : String) (tail : List Char) :
    readFieldValue (quoteJson v ++ tail) = some (FieldValue.str v, tail) := by
  have h1 : skipJsonSpace (quoteJson v ++ tail)
      = '\"' :: (escapeChars v.toList ++ '\"' :: tail) := by
    have := skipJsonSpace_keep '\"' (escapeChars v.toList ++ '\"' :: tail) (by decide)
    simpa [quoteJson] using this
  unfold readFieldValue
  rw [h1]
  simp [readString_escapeChars]

theorem readMembers_member_compact (k v : String) (tail : List Char) (f : Nat) :
    readMembers (f + 1) (quoteJson k ++ ':' :: quoteJson v ++ tail)
      = match skipJsonSpace tail with
        | ',' :: r4 => (readMembers f r4).map fun p => ((k, FieldValue.str v) :: p.1, p.2)
        | '\x7d' :: r4 => some ([(k, FieldValue.str v)], r4)
        | _ => none := by
  have h1 : skipJsonSpace (quoteJson k ++ ':' :: quoteJson v ++ tail)
      = '\"' :: (escapeChars k.toList ++ '\"' :: (':' :: (quoteJson v ++ tail))) := by
    have := skipJsonSpace_keep '\"'
      (escapeChars k.toList ++ '\"' :: (':' :: (quoteJson v ++ tail))) (by decide)
    simpa [quoteJson] using this
  have h2 : skipJsonSpace (':' :: (quoteJson v ++ tail)) = ':' :: (quoteJson v ++ tail) :=
    skipJsonSpace_keep _ _ (by decide)
  rw [readMembers, h1]
  simp only [readString_escapeChars, h2, readFieldValue_compact]
  rfl

/-- Reading back the members `json.Marshal` writes. -/
theorem readMembers_renderMembers (ms : List (String × String)) (hms : ms ≠ [])
    (rest : List Char) :
    ∀ fuel, ms.length ≤ fuel →
      readMembers fuel (renderMembers ms ++ '\x7d' :: rest)
        = some (ms.map fun kv => (kv.1, FieldValue.str kv.2), rest) := by
  induction ms with
  | nil => exact absurd rfl hms
  | cons kv ms ih =>
    intro fuel hfuel
    cases fuel with
    | zero => simp at hfuel
    | succ f =>
      cases ms with
      | nil =>
        have h3 : skipJsonSpace ('\x7d' :: rest) = '\x7d' :: rest :=
          skipJsonSpace_keep _ _ (by decide)
        have := readMembers_member_compact kv.1 kv.2 ('\x7d' :: rest) f
        rw [h3] at this
        simpa [renderMembers] using this
      | cons kv2 ms2 =>
        have h3 : skipJsonSpace (',' :: (renderMembers (kv2 :: ms2) ++ '\x7d' :: rest))
            = ',' :: (renderMembers (kv2 :: ms2) ++ '\x7d' :: rest) :=
          skipJsonSpace_keep _ _ (by decide)
        have := readMembers_member_compact kv.1 kv.2
          (',' :: (renderMembers (kv2 :: ms2) ++ '\x7d' :: rest)) f
        rw [h3] at this
        have hrec := ih (by simp) f (by simpa using hfuel)
        simp only [hrec] at this
        simpa [renderMembers] using this

theorem renderMembers_head (ms : List (String × String)) (hms : ms ≠ []) :
    ∃ tail, renderMembers ms = '\"' :: tail := by
  cases ms with
  | nil => exact absurd rfl hms
  | cons kv ms =>
    cases ms with
    | nil => exact ⟨_, by simp [renderMembers, quoteJson]; rfl⟩
    | cons kv2 ms2 => exact ⟨_, by simp [renderMembers, quoteJson]; rfl⟩

theorem renderMembers_length (ms : List (String × String)) :
    ms.length ≤ (renderMembers ms).length := by
  induction ms with
  | nil => simp
  | cons kv ms ih =>
    cases ms with
    | nil => simp [renderMembers, quoteJson]
    | cons kv2 ms2 =>
      simp only [renderMembers, List.length_cons, List.length_append] at ih ⊢
      omega

/-- The text `json.Marshal` writes for an object with at least one member reads back
as the object of these members. -/
theorem readTop_renderObject (ms : List (String × String)) (hms : ms ≠ []) :
    readTop (renderObject ms).toList
      = some (TopValue.object (ms.map fun kv => (kv.1, FieldValue.str kv.2))) := by
  obtain ⟨tail, htail⟩ := renderMembers_head ms hms
  have h0 : (renderObject ms).toList = '\x7b' :: (renderMembers ms ++ ['\x7d']) := rfl
  have h1 : skipJsonSpace ('\x7b' :: (renderMembers ms ++ ['\x7d']))
      = '\x7b' :: (renderMembers ms ++ ['\x7d']) :=
    skipJsonSpace_keep _ _ (by decide)
  have h2 : skipJsonSpace (renderMembers ms ++ ['\x7d']) = '\"' :: (tail ++ ['\x7d']) := by
    have := skipJsonSpace_keep '\"' (tail ++ ['\x7d']) (by decide)
    rw [htail]
    simpa using this
  have h3 := readMembers_renderMembers ms hms [] (renderMembers ms ++ ['\x7d']).length
    (by have := renderMembers_length ms
        simp only [List.length_append]
        omega)
  rw [h0, readTop, h1]
  simp only [h2, h3]
  simp [atEnd, skipJsonSpace]

theorem readTop_marshal (r : requestFormat) :
    readTop r.marshal.toList
      = some (TopValue.object
          ([("message", FieldValue.str r.M), ("content", FieldValue.str r.C)]
            ++ (if r.SHA = "" then [] else [("sha", FieldValue.str r.SHA)])
            ++ (if r.Branch = "" then [] else [("branch", FieldValue.str r.Branch)]))) := by
  have hne : r.members ≠ [] := by rw [members_eq]; simp
  unfold requestFormat.marshal
  rw [readTop_renderObject r.members hne, members_eq]
  by_cases h1 : r.SHA = "" <;> by_cases h2 : r.Branch = "" <;> simp [h1, h2]

theorem marshal_path_free (r : requestFormat) (p : String) :
    ({ r with Path := p } : requestFormat).marshal = r.marshal := by
  simp [requestFormat.marshal, members_eq]

theorem bodyMembers_keys (m c sha branch : String) :
    ("sha" ∈ ([("message", FieldValue.str m), ("content", FieldValue.str c)]
          ++ (if sha = "" then [] else [("sha", FieldValue.str sha)])
          ++ (if branch = "" then [] else [("branch", FieldValue.str branch)])).map Prod.fst
        ↔ sha ≠ "")
      ∧ ("branch" ∈ ([("message", FieldValue.str m), ("content", FieldValue.str c)]
          ++ (if sha = "" then [] else [("sha", FieldValue.str sha)])
          ++ (if branch = "" then [] else [("branch", FieldValue.str branch)])).map Prod.fst
        ↔ branch ≠ "")
      ∧ (∀ k ∈ ([("message", FieldValue.str m), ("content", FieldValue.str c)]
          ++ (if sha = "" then [] else [("sha", FieldValue.str sha)])
          ++ (if branch = "" then [] else [("branch", FieldValue.str branch)])).map Prod.fst,
          k = "message" ∨ k = "content" ∨ k = "sha" ∨ k = "branch") := by
  have d1 : ("sha" : String) ≠ "message" := by decide
  have d2 : ("sha" : String) ≠ "content" := by decide
  have d3 : ("sha" : String) ≠ "branch" := by decide
  have d4 : ("branch" : String) ≠ "message" := by decide
  have d5 : ("branch" : String) ≠ "content" := by decide
  have d6 : ("branch" : String) ≠ "sha" := by decide
  by_cases h1 : sha = "" <;> by_cases h2 : branch = ""
  all_goals
    simp only [h1, h2, if_true, if_false, List.append_nil, List.map_cons, List.map_nil,
      List.cons_append, List.nil_append, List.mem_cons, List.mem_singleton, List.not_mem_nil,
      d1, d2, d3, d4, d5, d6, or_false, false_or, ne_eq, not_true_eq_false,
      not_false_eq_true, iff_self, true_and, or_true, true_or]
  all_goals
    intro k hk
    tauto

theorem pushRequest_body_read (flags : PushFlags) (fileName content : String) (w : World) :
    readTop (pushRequest flags fileName content w).body.toList
      = some (TopValue.object
          ([("message", FieldValue.str (pushResolve flags fileName w).2.M),
              ("content", FieldValue.str (base64Encode content))]
            ++ (if flags.sha = "" then [] else [("sha", FieldValue.str flags.sha)])
            ++ (if (pushResolve flags fileName w).2.Branch = "" then []
                else [("branch", FieldValue.str (pushResolve flags fileName w).2.Branch)]))) := by
  have h := readTop_marshal { (pushResolve flags fileName w).2 with C := base64Encode content }
  have hs : (pushResolve flags fileName w).2.SHA = flags.sha := by
    simp [pushResolve_record]
  show readTop ({ (pushResolve flags fileName w).2 with
    C := base64Encode content } : requestFormat).marshal.toList = _
  rw [h]
  simp only [hs]

/-! ## The claims on the push command -/

/-- C3: for every configuration and every path, `getAPIUrl` is the concatenation of
the fixed host part, the user name, a slash, the repository, `/contents` and the path;
the user name precedes the repository and the path is appended as it is, with no
separator added, removed or normalised. -/
theorem getAPIUrl_concat (c : configuration) (path : String) :
    c.getAPIUrl path
      = "https://api.github.com/repos/" ++ c.Username ++ "/" ++ c.Repo ++ "/contents" ++ path :=
  getAPIUrl_eq c path

/-- C4: the text `json.Marshal` writes for a request record is a JSON object: read
back, it is the object whose members are `message` (the commit message) and `content`
(the base64 content), then `sha` exactly when the blob SHA is not empty, then `branch`
exactly when the branch is not empty; no other key occurs, so the remote path is
under no key, and the text does not depend on the remote path. -/
theorem marshal_body_keys (r : requestFormat) :
    ∃ ms : List (String × FieldValue),
      readTop r.marshal.toList = some (TopValue.object ms)
      ∧ ms = [("message", FieldValue.str r.M), ("content", FieldValue.str r.C)]
          ++ (if r.SHA = "" then [] else [("sha", FieldValue.str r.SHA)])
          ++ (if r.Branch = "" then [] else [("branch", FieldValue.str r.Branch)])
      ∧ ("message", FieldValue.str r.M) ∈ ms
      ∧ ("content", FieldValue.str r.C) ∈ ms
      ∧ ("sha" ∈ ms.map Prod.fst ↔ r.SHA ≠ "")
      ∧ ("branch" ∈ ms.map Prod.fst ↔ r.Branch ≠ "")
      ∧ (∀ k ∈ ms.map Prod.fst, k = "message" ∨ k = "content" ∨ k = "sha" ∨ k = "branch")
      ∧ (∀ p : String, readTop ({ r with Path := p } : requestFormat).marshal.toList
          = some (TopValue.object ms))
      ∧ (∀ p : String, ({ r with Path := p } : requestFormat).marshal = r.marshal) := by
  have hpath := marshal_path_free r
  refine ⟨_, readTop_marshal r, rfl, ?_, ?_, (bodyMembers_keys r.M r.C r.SHA r.Branch).1,
    (bodyMembers_keys r.M r.C r.SHA r.Branch).2.1,
    (bodyMembers_keys r.M r.C r.SHA r.Branch).2.2, ?_, hpath⟩
  · simp
  · simp
  · intro p
    rw [hpath p]
    exact readTop_marshal r

/-- C2: when the push command receives a response with status `s`, it ends with exit
code 1 exactly when `s > 250`, and then the last text printed is the error line with
the response body; for `s ≤ 250` it prints `success` and ends with exit code 0. -/
theorem push_status_threshold (env : Env) (flags : PushFlags) (args : List String)
    (w0 w : World) (cf content : String) (s : Int) (body : String)
    (hcfg : getConfig env w0 = Outcome.ok w cf)
    (hfile : w.fs (args.getLastD "") = Except.ok content)
    (hurl : env.urlErr (pushRequest flags (args.getLastD "") content w).url = none)
    (hresp : env.roundTrip (pushRequest flags (args.getLastD "") content w)
      = Except.ok (s, body)) :
    ((pushCommand env flags args w0).exitCode = some 1 ↔ s > 250)
      ∧ (s > 250 → (pushCommand env flags args w0).exitCode = some 1
          ∧ (pushCommand env flags args w0).world.trace.getLast?
            = some (Event.print ("error received from github, " ++ body ++ "\n")))
      ∧ (s ≤ 250 → (pushCommand env flags args w0).exitCode = some 0
          ∧ (pushCommand env flags args w0).world.trace.getLast?
            = some (Event.print "success\n")) := by
  have hfile2 : (pushResolve flags (args.getLastD "") w).1.fs (args.getLastD "")
      = Except.ok content := by rw [pushResolve_fs]; exact hfile
  have hsucc : sprintln ["success"] = "success\n" := by decide
  rw [pushCommand_of_getConfig env flags args w0 w cf hcfg,
    pushSend_of_read env _ content (pushResolve flags (args.getLastD "") w).2 _ hfile2 hurl]
  unfold pushRequest at hresp
  simp only [hresp, handleResponse]
  by_cases hs : s > 250
  · simp [hs, Outcome.exitCode, Outcome.world, World.print, sprintf_github_error]
  · have hs2 : s ≤ 250 := by omega
    simp [hs, hs2, Outcome.exitCode, Outcome.world, World.print, hsucc]

/-- Instance of C2 on concrete runs: the statuses 201, 251 and 404. -/
theorem push_status_threshold_witness :
    (getConfig (demoEnv 251) (World.fresh demoFs []) = Outcome.ok demoLoaded demoConfigPath
      ∧ demoLoaded.fs (["gh-file", "push", "a.md"].getLastD "") = Except.ok "hello")
      ∧ (pushCommand (demoEnv 201) demoNoFlags ["gh-file", "push", "a.md"]
          (World.fresh demoFs [])).exitCode = some 0
      ∧ (pushCommand (demoEnv 251) demoNoFlags ["gh-file", "push", "a.md"]
          (World.fresh demoFs [])).exitCode = some 1
      ∧ (pushCommand (demoEnv 404) demoNoFlags ["gh-file", "push", "a.md"]
          (World.fresh demoFs [])).world.trace.getLast?
            = some (Event.print ("error received from github, " ++ "response" ++ "\n")) :=
  ⟨⟨by rfl, by rfl⟩,
    ((push_status_threshold (demoEnv 201) demoNoFlags ["gh-file", "push", "a.md"]
      (World.fresh demoFs []) demoLoaded demoConfigPath "hello" 201 "response"
      (by rfl) (by rfl) (by rfl) (by rfl)).2.2 (by decide)).1,
    ((push_status_threshold (demoEnv 251) demoNoFlags ["gh-file", "push", "a.md"]
      (World.fresh demoFs []) demoLoaded demoConfigPath "hello" 251 "response"
      (by rfl) (by rfl) (by rfl) (by rfl)).2.1 (by decide)).1,
    ((push_status_threshold (demoEnv 404) demoNoFlags ["gh-file", "push", "a.md"]
      (World.fresh demoFs []) demoLoaded demoConfigPath "hello" 404 "response"
      (by rfl) (by rfl) (by rfl) (by rfl)).2.1 (by decide)).2⟩

/-- C5: when reading the local file fails, the push command ends with exit code 1,
and no request has been built or sent: the requests in the trace are those that were
there before the command ran. -/
theorem push_unreadable_file (env : Env) (flags : PushFlags) (args : List String)
    (w0 w : World) (cf err : String)
    (hcfg : getConfig env w0 = Outcome.ok w cf)
    (hfile : w.fs (args.getLastD "") = Except.error err) :
    (pushCommand env flags args w0).exitCode = some 1
      ∧ sentRequests (pushCommand env flags args w0).world.trace = sentRequests w0.trace
      ∧ builtRequests (pushCommand env flags args w0).world.trace = builtRequests w0.trace := by
  have hfile2 : (pushResolve flags (args.getLastD "") w).1.fs (args.getLastD "")
      = Except.error err := by rw [pushResolve_fs]; exact hfile
  have hreq := getConfig_requests env w0 w cf hcfg
  rw [pushCommand_of_getConfig env flags args w0 w cf hcfg]
  simp only [pushSend, hfile2, Outcome.exitCode, Outcome.world, World.print,
    sentRequests_append, builtRequests_append, sentRequests, builtRequests, List.append_nil,
    true_and]
  rw [(pushResolve_requests flags (args.getLastD "") w).1,
    (pushResolve_requests flags (args.getLastD "") w).2]
  exact hreq

/-- Instance of C5 on a concrete run: the local file `b.md` does not exist. -/
theorem push_unreadable_file_witness :
    (getConfig (demoEnv 201) (World.fresh demoFs []) = Outcome.ok demoLoaded demoConfigPath
      ∧ demoLoaded.fs (["gh-file", "push", "b.md"].getLastD "")
        = Except.error "no such file or directory")
      ∧ (pushCommand (demoEnv 201) demoAllFlags ["gh-file", "push", "b.md"]
          (World.fresh demoFs [])).exitCode = some 1
      ∧ sentRequests (pushCommand (demoEnv 201) demoAllFlags ["gh-file", "push", "b.md"]
          (World.fresh demoFs [])).world.trace = sentRequests (World.fresh demoFs []).trace
      ∧ builtRequests (pushCommand (demoEnv 201) demoAllFlags ["gh-file", "push", "b.md"]
          (World.fresh demoFs [])).world.trace = builtRequests (World.fresh demoFs []).trace :=
  ⟨⟨by rfl, by rfl⟩,
    push_unreadable_file (demoEnv 201) demoAllFlags ["gh-file", "push", "b.md"]
      (World.fresh demoFs []) demoLoaded demoConfigPath "no such file or directory"
      (by rfl) (by rfl)⟩

/-- C1: in the push command, the request sent is built from the effective values, and
each effective value is the flag value whenever the flag is not empty, whatever the
loaded configuration holds: the URL is made of the effective user name, repository
and path, the credentials are the effective user name and token, and the text of the
body, read back as JSON, is an object whose `message` and `branch` members are the
effective message and branch (so the message flag and the branch flag when given). -/
theorem push_flag_overrides (env : Env) (flags : PushFlags) (args : List String)
    (w0 w : World) (cf content : String)
    (hcfg : getConfig env w0 = Outcome.ok w cf)
    (hfile : w.fs (args.getLastD "") = Except.ok content)
    (hurl : env.urlErr (pushRequest flags (args.getLastD "") content w).url = none) :
    sentRequests (pushCommand env flags args w0).world.trace
        = sentRequests w0.trace ++ [pushRequest flags (args.getLastD "") content w]
      ∧ (pushRequest flags (args.getLastD "") content w).url
        = "https://api.github.com/repos/" ++ (applyCredentialFlags flags w.config).Username
          ++ "/" ++ (applyCredentialFlags flags w.config).Repo ++ "/contents"
          ++ (pushResolve flags (args.getLastD "") w).2.Path
      ∧ (pushRequest flags (args.getLastD "") content w).authUser
        = (applyCredentialFlags flags w.config).Username
      ∧ (pushRequest flags (args.getLastD "") content w).authPassword
        = (applyCredentialFlags flags w.config).Token
      ∧ (pushRequest flags (args.getLastD "") content w).body
        = renderObject ([("message", (pushResolve flags (args.getLastD "") w).2.M),
            ("content", base64Encode content)]
          ++ (if flags.sha = "" then [] else [("sha", flags.sha)])
          ++ (if (pushResolve flags (args.getLastD "") w).2.Branch = "" then []
              else [("branch", (pushResolve flags (args.getLastD "") w).2.Branch)]))
      ∧ (flags.customRepo ≠ ""
          → (applyCredentialFlags flags w.config).Repo = flags.customRepo)
      ∧ (flags.customUsername ≠ ""
          → (applyCredentialFlags flags w.config).Username = flags.customUsername)
      ∧ (flags.customToken ≠ ""
          → (applyCredentialFlags flags w.config).Token = flags.customToken)
      ∧ (flags.branch ≠ "" → (pushResolve flags (args.getLastD "") w).2.Branch = flags.branch)
      ∧ (flags.remotePath ≠ ""
          → (pushResolve flags (args.getLastD "") w).2.Path = flags.remotePath)
      ∧ (flags.message ≠ ""
          → (pushResolve flags (args.getLastD "") w).2.M = flags.message)
      ∧ readTop (pushRequest flags (args.getLastD "") content w).body.toList
        = some (TopValue.object
            ([("message", FieldValue.str (pushResolve flags (args.getLastD "") w).2.M),
                ("content", FieldValue.str (base64Encode content))]
              ++ (if flags.sha = "" then [] else [("sha", FieldValue.str flags.sha)])
              ++ (if (pushResolve flags (args.getLastD "") w).2.Branch = "" then []
                  else [("branch",
                    FieldValue.str (pushResolve flags (args.getLastD "") w).2.Branch)])))
      ∧ (flags.message ≠ ""
          → ∃ ms, readTop (pushRequest flags (args.getLastD "") content w).body.toList
              = some (TopValue.object ms)
            ∧ ms.lookup "message" = some (FieldValue.str flags.message))
      ∧ (flags.branch ≠ ""
          → ∃ ms, readTop (pushRequest flags (args.getLastD "") content w).body.toList
              = some (TopValue.object ms)
            ∧ ms.lookup "branch" = some (FieldValue.str flags.branch)) := by
  have hfile2 : (pushResolve flags (args.getLastD "") w).1.fs (args.getLastD "")
      = Except.ok content := by rw [pushResolve_fs]; exact hfile
  have hreq := getConfig_requests env w0 w cf hcfg
  have hbody := pushRequest_body_read flags (args.getLastD "") content w
  refine ⟨?_, ?_, ?_, ?_, ?_, ?_, ?_, ?_, ?_, ?_, ?_, hbody, ?_, ?_⟩
  · rw [pushCommand_of_getConfig env flags args w0 w cf hcfg,
      pushSend_of_read env _ content (pushResolve flags (args.getLastD "") w).2 _ hfile2 hurl]
    have hw : ∀ st rb, sentRequests (handleResponse st rb
        (((pushResolve flags (args.getLastD "") w).1.emit (Event.requestBuilt
          (pushRequest flags (args.getLastD "") content w))).emit (Event.requestSent
          (pushRequest flags (args.getLastD "") content w)))).world.trace
        = sentRequests w0.trace ++ [pushRequest flags (args.getLastD "") content w] := by
      intro st rb
      obtain ⟨t, ht⟩ := handleResponse_trace st rb
        (((pushResolve flags (args.getLastD "") w).1.emit (Event.requestBuilt
          (pushRequest flags (args.getLastD "") content w))).emit (Event.requestSent
          (pushRequest flags (args.getLastD "") content w)))
      rw [ht]
      simp [World.emit, sentRequests_append, sentRequests, pushResolve_requests, hreq]
    unfold pushRequest at hw
    cases hr : env.roundTrip (buildRequest (pushResolve flags (args.getLastD "") w).1.config
        { (pushResolve flags (args.getLastD "") w).2 with C := base64Encode content }) with
    | error e =>
      simp [Outcome.world, World.print, World.emit, sentRequests_append, sentRequests,
        pushResolve_requests, hreq, pushRequest]
    | ok v =>
      obtain ⟨st, rb⟩ := v
      simpa [pushRequest] using hw st rb
  · simp [pushRequest, buildRequest, getAPIUrl_eq, pushResolve_config]
  · simp [pushRequest, buildRequest, pushResolve_config]
  · simp [pushRequest, buildRequest, pushResolve_config]
  · simp [pushRequest, buildRequest, requestFormat.marshal, members_eq, pushResolve_record]
  · intro h; simp [applyCredentialFlags_eq, h]
  · intro h; simp [applyCredentialFlags_eq, h]
  · intro h; simp [applyCredentialFlags_eq, h]
  · intro h; simp [pushResolve_record, h]
  · intro h; simp [pushResolve_record, h]
  · intro h; simp [pushResolve_record, h]
  · intro h
    have hm : (pushResolve flags (args.getLastD "") w).2.M = flags.message := by
      simp [pushResolve_record, h]
    refine ⟨_, hbody, ?_⟩
    rw [hm]
    simp [List.lookup]
  · intro h
    have hb : (pushResolve flags (args.getLastD "") w).2.Branch = flags.branch := by
      simp [pushResolve_record, h]
    have d1 : ("branch" == "message") = false := by decide
    have d2 : ("branch" == "content") = false := by decide
    have d3 : ("branch" == "sha") = false := by decide
    refine ⟨_, hbody, ?_⟩
    rw [hb]
    by_cases hs : flags.sha = "" <;> simp [List.lookup, h, hs, d1, d2, d3]

/-- Instance of C1 on a concrete run in which every flag is given: the request sent,
its URL and credentials, and the text of its body with the members read back from
it. -/
theorem push_flag_overrides_witness :
    (getConfig (demoEnv 201) (World.fresh demoFs []) = Outcome.ok demoLoaded demoConfigPath
      ∧ demoLoaded.fs (["gh-file", "push", "a.md"].getLastD "") = Except.ok "hello")
      ∧ sentRequests (pushCommand (demoEnv 201) demoAllFlags ["gh-file", "push", "a.md"]
          (World.fresh demoFs [])).world.trace
        = sentRequests (World.fresh demoFs []).trace
          ++ [pushRequest demoAllFlags (["gh-file", "push", "a.md"].getLastD "") "hello"
              demoLoaded]
      ∧ (applyCredentialFlags demoAllFlags demoLoaded.config).Repo = demoAllFlags.customRepo
      ∧ (applyCredentialFlags demoAllFlags demoLoaded.config).Username
        = demoAllFlags.customUsername
      ∧ (applyCredentialFlags demoAllFlags demoLoaded.config).Token = demoAllFlags.customToken
      ∧ (pushResolve demoAllFlags (["gh-file", "push", "a.md"].getLastD "") demoLoaded).2.Branch
        = demoAllFlags.branch
      ∧ (pushResolve demoAllFlags (["gh-file", "push", "a.md"].getLastD "") demoLoaded).2.Path
        = demoAllFlags.remotePath
      ∧ (pushResolve demoAllFlags (["gh-file", "push", "a.md"].getLastD "") demoLoaded).2.M
        = demoAllFlags.message
      ∧ (pushRequest demoAllFlags (["gh-file", "push", "a.md"].getLastD "") "hello"
          demoLoaded).url = "https://api.github.com/repos/bob/site/contents/docs/a.md"
      ∧ (pushRequest demoAllFlags (["gh-file", "push", "a.md"].getLastD "") "hello"
          demoLoaded).body
        = "\x7b\"message\":\"update\",\"content\":\"aGVsbG8=\","
          ++ "\"sha\":\"abc123\",\"branch\":\"dev\"\x7d"
      ∧ readTop (pushRequest demoAllFlags (["gh-file", "push", "a.md"].getLastD "") "hello"
          demoLoaded).body.toList
        = some (TopValue.object [("message", FieldValue.str "update"),
            ("content", FieldValue.str "aGVsbG8="), ("sha", FieldValue.str "abc123"),
            ("branch", FieldValue.str "dev")])
      ∧ (∃ ms, readTop (pushRequest demoAllFlags (["gh-file", "push", "a.md"].getLastD "")
            "hello" demoLoaded).body.toList = some (TopValue.object ms)
          ∧ ms.lookup "message" = some (FieldValue.str demoAllFlags.message))
      ∧ (∃ ms, readTop (pushRequest demoAllFlags (["gh-file", "push", "a.md"].getLastD "")
            "hello" demoLoaded).body.toList = some (TopValue.object ms)
          ∧ ms.lookup "branch" = some (FieldValue.str demoAllFlags.branch)) :=
  have ⟨hsent, hurl, _, _, _, hrepo, huser, htoken, hbranch, hpath, hmsg, hread, hbm, hbb⟩ :=
    push_flag_overrides (demoEnv 201) demoAllFlags ["gh-file", "push", "a.md"]
      (World.fresh demoFs []) demoLoaded demoConfigPath "hello" (by rfl) (by rfl) (by rfl)
  ⟨⟨by rfl, by rfl⟩, hsent, hrepo (by decide), huser (by decide), htoken (by decide),
    hbranch (by decide), hpath (by decide), hmsg (by decide), hurl.trans (by decide),
    by decide, hread.trans (by decide), hbm (by decide), hbb (by decide)⟩

/-- The request of the concrete run in which every flag is given. -/
theorem demo_request_value :
    pushRequest demoAllFlags "a.md" "hello" demoLoaded
      = { method := "PUT"
          url := "https://api.github.com/repos/bob/site/contents/docs/a.md"
          body := "\x7b\"message\":\"update\",\"content\":\"aGVsbG8=\","
            ++ "\"sha\":\"abc123\",\"branch\":\"dev\"\x7d"
          accept := "application/vnd.github.v3+json"
          authUser := "bob"
          authPassword := "secret" } := by
  decide

/-- C6, as stated, fails: with the flags for repository, user name and token not given
(and those for branch, path and message given), the stored values are used and nothing
at all is printed, so no fallback notice is emitted for these three fields. -/
theorem push_fallback_silent :
    demoSomeFlags.customRepo = "" ∧ demoSomeFlags.customUsername = ""
      ∧ demoSomeFlags.customToken = ""
      ∧ (pushResolve demoSomeFlags "a.md" demoLoaded).1.config = demoLoaded.config
      ∧ printed (pushResolve demoSomeFlags "a.md" demoLoaded).1.trace = [] := by
  decide

/-- C6, amended: when the flag of a field is empty, the effective value is the loaded
one, for repository, user name, token and branch; the branch fallback prints
`Using default branch`; and the texts printed while the values are resolved are the
notices for branch, path and message only, so repository, user name and token fall
back without a notice. -/
theorem push_fallbacks (flags : PushFlags) (fileName content : String) (w : World) :
    (flags.customRepo = "" → (applyCredentialFlags flags w.config).Repo = w.config.Repo)
      ∧ (flags.customUsername = ""
          → (pushRequest flags fileName content w).authUser = w.config.Username)
      ∧ (flags.customToken = ""
          → (pushRequest flags fileName content w).authPassword = w.config.Token)
      ∧ (flags.branch = ""
          → (pushResolve flags fileName w).2.Branch = w.config.DefaultBranch
            ∧ "Using default branch\n" ∈ printed (pushResolve flags fileName w).1.trace)
      ∧ (pushRequest flags fileName content w).url
        = "https://api.github.com/repos/" ++ (pushRequest flags fileName content w).authUser
          ++ "/" ++ (applyCredentialFlags flags w.config).Repo ++ "/contents"
          ++ (pushResolve flags fileName w).2.Path
      ∧ printed (pushResolve flags fileName w).1.trace
        = printed w.trace
          ++ (if flags.branch = "" then ["Using default branch\n"] else [])
          ++ (if flags.remotePath = "" then ["Path not provided, using default directory...\n"]
              else [])
          ++ (if flags.message = "" then ["Message not provided. Using  " ++ fileName ++ "\n"]
              else []) := by
  refine ⟨?_, ?_, ?_, ?_, ?_, pushResolve_printed flags fileName w⟩
  · intro h; simp [applyCredentialFlags_eq, h]
  · intro h; simp [pushRequest, buildRequest, pushResolve_config, applyCredentialFlags_eq, h]
  · intro h; simp [pushRequest, buildRequest, pushResolve_config, applyCredentialFlags_eq, h]
  · intro h
    refine ⟨by simp [pushResolve_record, h], ?_⟩
    rw [pushResolve_printed]
    simp [h]
  · simp [pushRequest, buildRequest, getAPIUrl_eq, pushResolve_config]

/-- Instance of C6, amended, on a concrete run without flags. -/
theorem push_fallbacks_witness :
    (demoNoFlags.customRepo = "" ∧ demoNoFlags.customUsername = ""
      ∧ demoNoFlags.customToken = "" ∧ demoNoFlags.branch = "")
      ∧ (applyCredentialFlags demoNoFlags demoLoaded.config).Repo = "blog"
      ∧ (pushRequest demoNoFlags "a.md" "hello" demoLoaded).authUser = "alice"
      ∧ (pushRequest demoNoFlags "a.md" "hello" demoLoaded).authPassword = "tok"
      ∧ (pushResolve demoNoFlags "a.md" demoLoaded).2.Branch = "main"
      ∧ "Using default branch\n"
        ∈ printed (pushResolve demoNoFlags "a.md" demoLoaded).1.trace :=
  have h := push_fallbacks demoNoFlags "a.md" "hello" demoLoaded
  ⟨by decide, h.1 (by decide), h.2.1 (by decide), h.2.2.1 (by decide),
    (h.2.2.2.1 (by decide)).1, (h.2.2.2.1 (by decide)).2⟩

/-- C7, as stated, fails: for the file name `docs/a.md` and the stored default path
`/posts/`, the remote path is `/posts/docs/a.md`, not the default path followed by the
base name `a.md`. -/
theorem push_default_path_keeps_directories :
    demoNoFlags.remotePath = ""
      ∧ (pushResolve demoNoFlags "docs/a.md" demoLoaded).2.Path = "/posts/docs/a.md"
      ∧ demoLoaded.config.DefaultPath ++ specBaseName "docs/a.md" = "/posts/a.md"
      ∧ (pushResolve demoNoFlags "docs/a.md" demoLoaded).2.Path
        ≠ demoLoaded.config.DefaultPath ++ specBaseName "docs/a.md" := by
  decide

/-- C7, amended: when the `-path` flag is not given, the remote path of the request
URL is the stored default path followed by the file name argument as it was given
(directory components included), and the fallback message is printed; for a file name
without a slash this is the default path followed by the base name. -/
theorem push_default_path (flags : PushFlags) (fileName content : String) (w : World)
    (hpath : flags.remotePath = "") :
    (pushResolve flags fileName w).2.Path = w.config.DefaultPath ++ fileName
      ∧ (pushRequest flags fileName content w).url
        = "https://api.github.com/repos/" ++ (applyCredentialFlags flags w.config).Username
          ++ "/" ++ (applyCredentialFlags flags w.config).Repo ++ "/contents"
          ++ (w.config.DefaultPath ++ fileName)
      ∧ "Path not provided, using default directory...\n"
        ∈ printed (pushResolve flags fileName w).1.trace
      ∧ (fileName ≠ "" → '/' ∉ fileName.toList
          → (pushResolve flags fileName w).2.Path
            = w.config.DefaultPath ++ specBaseName fileName) := by
  have hp : (pushResolve flags fileName w).2.Path = w.config.DefaultPath ++ fileName := by
    simp [pushResolve_record, hpath]
  refine ⟨hp, ?_, ?_, ?_⟩
  · simp [pushRequest, buildRequest, getAPIUrl_eq, pushResolve_config, hp]
  · rw [pushResolve_printed]
    simp [hpath]
  · intro hne hslash
    rw [hp, specBaseName_plain fileName hne hslash]

/-- Instance of C7, amended, on a concrete run without flags. -/
theorem push_default_path_witness :
    demoNoFlags.remotePath = ""
      ∧ (pushResolve demoNoFlags "docs/a.md" demoLoaded).2.Path
        = demoLoaded.config.DefaultPath ++ "docs/a.md"
      ∧ "Path not provided, using default directory...\n"
        ∈ printed (pushResolve demoNoFlags "docs/a.md" demoLoaded).1.trace :=
  have h := push_default_path demoNoFlags "docs/a.md" "hello" demoLoaded (by decide)
  ⟨by decide, h.1, h.2.2.1⟩

/-! ## The claims on the configuration store -/

theorem sprintf_config_path (dir : String) :
    sprintf "%s/blog-tool/config.json" [dir] = dir ++ "/blog-tool/config.json" := by
  apply String.ext
  simp only [sprintf, String.data_append]
  show sprintfChars ("%s/blog-tool/config.json".toList) _ = _
  simp [sprintfChars, String.toList]

/-- C8: a configuration saved by `saveConfig` to the configuration file and loaded by
`getConfig` in a fresh process (configuration in memory at its zero value) comes back
equal field for field; interactive creation is not entered, nothing is printed and
no input is consumed. -/
theorem config_round_trip (env : Env) (c : configuration) (w : World) (dir : String)
    (stdin : List Char)
    (hdir : env.userConfigDir = Except.ok dir)
    (hwrite : env.writeErr (dir ++ "/blog-tool/config.json") = none)
    (hc : w.config = c) :
    ∃ w2, getConfig env
          (World.fresh (saveConfig env (dir ++ "/blog-tool/config.json") w).fs stdin)
        = Outcome.ok w2 (dir ++ "/blog-tool/config.json")
      ∧ w2.config = c
      ∧ (w2.config.Repo = c.Repo ∧ w2.config.Token = c.Token ∧ w2.config.Username = c.Username
          ∧ w2.config.DefaultBranch = c.DefaultBranch ∧ w2.config.DefaultPath = c.DefaultPath)
      ∧ firstTimeCalls w2.trace = 0
      ∧ w2.trace = []
      ∧ w2.stdin = stdin := by
  subst hc
  have hfs : (saveConfig env (dir ++ "/blog-tool/config.json") w).fs
      (dir ++ "/blog-tool/config.json") = Except.ok w.config.marshalIndent := by
    simp [saveConfig, hwrite]
  refine ⟨{ fs := (saveConfig env (dir ++ "/blog-tool/config.json") w).fs, stdin := stdin,
            config := w.config, file := w.config.marshalIndent, trace := [] }, ?_, rfl,
          ⟨rfl, rfl, rfl, rfl, rfl⟩, rfl, rfl, rfl⟩
  simp [getConfig, hdir, sprintf_config_path, readConfigFile, World.fresh, hfs, onReadError,
    decodeIfNoToken, configuration.zero, unmarshalConfig_marshalIndent]

/-- Instance of C8 on a concrete configuration. -/
theorem config_round_trip_witness :
    ((demoEnv 201).userConfigDir = Except.ok "/home/u/.config"
      ∧ (demoEnv 201).writeErr ("/home/u/.config" ++ "/blog-tool/config.json") = none
      ∧ demoLoaded.config = demoConfig)
      ∧ ∃ w2, getConfig (demoEnv 201)
            (World.fresh
              (saveConfig (demoEnv 201) ("/home/u/.config" ++ "/blog-tool/config.json")
                demoLoaded).fs [])
          = Outcome.ok w2 ("/home/u/.config" ++ "/blog-tool/config.json")
        ∧ w2.config = demoConfig
        ∧ (w2.config.Repo = demoConfig.Repo ∧ w2.config.Token = demoConfig.Token
            ∧ w2.config.Username = demoConfig.Username
            ∧ w2.config.DefaultBranch = demoConfig.DefaultBranch
            ∧ w2.config.DefaultPath = demoConfig.DefaultPath)
        ∧ firstTimeCalls w2.trace = 0
        ∧ w2.trace = []
        ∧ w2.stdin = [] :=
  ⟨⟨rfl, rfl, rfl⟩,
    config_round_trip (demoEnv 201) demoConfig demoLoaded "/home/u/.config" [] rfl rfl rfl⟩

theorem unmarshalConfig_empty (c : configuration) :
    unmarshalConfig "" c = (c, some "invalid JSON text") := by
  rfl

theorem firstTime_calls (env : Env) (p : String) (w : World) :
    firstTimeCalls (firstTime env p w).trace = firstTimeCalls w.trace + 1 :=
  (firstTime_requests env p w).2.2

theorem saveConfig_trace (env : Env) (p : String) (w : World) :
    (saveConfig env p w).trace = w.trace ++ [saveConfigEvent env p w.config] := by
  unfold saveConfig saveConfigEvent
  split <;> simp_all [World.print]

theorem saveConfig_config (env : Env) (p : String) (w : World) :
    (saveConfig env p w).config = w.config := by
  unfold saveConfig
  split <;> rfl

theorem firstTimeCalls_saveConfigEvent (env : Env) (p : String) (c : configuration)
    (rest : List Event) :
    firstTimeCalls (saveConfigEvent env p c :: rest) = firstTimeCalls rest := by
  unfold saveConfigEvent
  split <;> rfl

theorem firstTime_trace (env : Env) (p : String) (w : World) :
    (firstTime env p w).trace
      = w.trace ++ [Event.firstTimeCall, Event.print "Github username: ",
          Event.print "Repo name: ",
          Event.print ("Github Personal Token (can be created at "
            ++ "https://github.com/settings/tokens"
            ++ " [make sure repo permissions are given])\nToken: "),
          Event.print "Default branch to use: ",
          Event.print "Default directory to use (For root use \'/\'): ",
          saveConfigEvent env p (firstTime env p w).config] := by
  have e : "Github Personal Token (can be created at https://github.com/settings/tokens"
      ++ " [make sure repo permissions are given])\nToken: "
      = "Github Personal Token (can be created at " ++ "https://github.com/settings/tokens"
        ++ " [make sure repo permissions are given])\nToken: " := by decide
  simp only [firstTime, saveConfig_trace, saveConfig_config, scanField_trace, World.print,
    World.emit, List.append_assoc, List.singleton_append, List.cons_append, List.nil_append, e]

theorem firstTime_trace_tail (env : Env) (p : String) (w : World) :
    ∃ tail, (firstTime env p w).trace = w.trace ++ Event.firstTimeCall :: tail
      ∧ firstTimeCalls tail = 0 := by
  rw [firstTime_trace]
  refine ⟨_, rfl, ?_⟩
  simp only [firstTimeCalls, firstTimeCalls_saveConfigEvent]

/-- C9, as stated, fails: a configuration file that is present and decodes without
error to an empty token does not start interactive creation (the answers waiting on
standard input are not read, and nothing is printed). -/
theorem getConfig_empty_token_no_creation :
    demoTokenlessFs demoConfigPath = Except.ok demoTokenlessText
      ∧ (unmarshalConfig demoTokenlessText configuration.zero).2 = none
      ∧ (unmarshalConfig demoTokenlessText configuration.zero).1.Token = ""
      ∧ (getConfig (demoEnv 201) (World.fresh demoTokenlessFs demoAnswers)).world.config.Token
        = ""
      ∧ firstTimeCalls
          (getConfig (demoEnv 201) (World.fresh demoTokenlessFs demoAnswers)).world.trace = 0
      ∧ (getConfig (demoEnv 201) (World.fresh demoTokenlessFs demoAnswers)).world.trace = []
      ∧ (getConfig (demoEnv 201) (World.fresh demoTokenlessFs demoAnswers)).world.stdin
        = demoAnswers :=
  ⟨rfl, by decide⟩

/-- C9, amended: for every load of a configuration file that is present, with no token
in memory (as in a fresh process), interactive creation is entered exactly when
decoding the file fails, once, and then the corruption warning is printed first: the
trace grows by the warning, then the entry into interactive creation, then events
among which there is no further entry. A file that decodes without error is taken as it
is, whether its token is empty or not, and interactive creation is not entered. -/
theorem getConfig_present_file (env : Env) (w0 : World) (dir data : String)
    (hdir : env.userConfigDir = Except.ok dir)
    (hfile : w0.fs (dir ++ "/blog-tool/config.json") = Except.ok data)
    (htoken : w0.config.Token = "") :
    ∃ w, getConfig env w0 = Outcome.ok w (dir ++ "/blog-tool/config.json")
      ∧ (firstTimeCalls w.trace = firstTimeCalls w0.trace + 1
          ↔ (unmarshalConfig data w0.config).2 ≠ none)
      ∧ ((unmarshalConfig data w0.config).2 = none
          → firstTimeCalls w.trace = firstTimeCalls w0.trace
            ∧ w.config = (unmarshalConfig data w0.config).1
            ∧ w.trace = w0.trace)
      ∧ (∀ err, (unmarshalConfig data w0.config).2 = some err
          → firstTimeCalls w.trace = firstTimeCalls w0.trace + 1
            ∧ "config file is corrupt, " ++ err ++ "\nLet's create a new one\n"
              ∈ printed w.trace
            ∧ ∃ tail, w.trace = w0.trace
                ++ Event.print ("config file is corrupt, " ++ err
                    ++ "\nLet's create a new one\n")
                  :: Event.firstTimeCall :: tail
              ∧ firstTimeCalls tail = 0) := by
  have hwarn : ∀ err, sprintf "config file is corrupt, %v\nLet's create a new one\n" [err]
      = "config file is corrupt, " ++ err ++ "\nLet's create a new one\n" := by
    intro err
    apply String.ext
    simp only [sprintf, String.data_append]
    show sprintfChars ("config file is corrupt, %v\nLet's create a new one\n".toList) _ = _
    simp [sprintfChars, String.toList]
  have hg : getConfig env w0
      = Outcome.ok (decodeIfNoToken env (dir ++ "/blog-tool/config.json")
          { w0 with file := data }) (dir ++ "/blog-tool/config.json") := by
    simp only [getConfig, hdir, sprintf_config_path, readConfigFile, hfile, onReadError]
  refine ⟨_, hg, ?_⟩
  simp only [decodeIfNoToken, htoken, if_true]
  cases hu : unmarshalConfig data w0.config with
  | mk c e =>
    cases e with
    | none => simp
    | some err =>
      simp only [firstTime_calls, World.print, firstTimeCalls_append, firstTimeCalls]
      refine ⟨by simp, by simp, ?_⟩
      intro err2 h2
      simp only [Option.some.injEq] at h2
      subst h2
      refine ⟨by simp, ?_, ?_⟩
      · rw [firstTime_trace]
        simp [printed_append, printed, hwarn]
      · obtain ⟨tail, ht, hc⟩ := firstTime_trace_tail env (dir ++ "/blog-tool/config.json")
          { fs := w0.fs, stdin := w0.stdin, config := c, file := data,
            trace := w0.trace ++ [Event.print
              (sprintf "config file is corrupt, %v\nLet's create a new one\n" [err])] }
        refine ⟨tail, ?_, hc⟩
        rw [ht]
        simp only [hwarn, List.append_assoc, List.singleton_append]

/-- Instance of C9, amended, on two concrete runs: a well-formed configuration file
and a corrupt one. -/
theorem getConfig_present_file_witness :
    ((demoEnv 201).userConfigDir = Except.ok "/home/u/.config"
      ∧ (World.fresh demoFs demoAnswers).fs ("/home/u/.config" ++ "/blog-tool/config.json")
        = Except.ok demoConfigText
      ∧ (World.fresh demoCorruptFs demoAnswers).fs
          ("/home/u/.config" ++ "/blog-tool/config.json") = Except.ok demoCorruptText
      ∧ (World.fresh demoFs demoAnswers).config.Token = "")
      ∧ (∃ w, getConfig (demoEnv 201) (World.fresh demoFs demoAnswers)
            = Outcome.ok w ("/home/u/.config" ++ "/blog-tool/config.json")
          ∧ firstTimeCalls w.trace = firstTimeCalls (World.fresh demoFs demoAnswers).trace
          ∧ w.config = (unmarshalConfig demoConfigText
              (World.fresh demoFs demoAnswers).config).1)
      ∧ (∃ w, getConfig (demoEnv 201) (World.fresh demoCorruptFs demoAnswers)
            = Outcome.ok w ("/home/u/.config" ++ "/blog-tool/config.json")
          ∧ firstTimeCalls w.trace
            = firstTimeCalls (World.fresh demoCorruptFs demoAnswers).trace + 1
          ∧ ∃ err, "config file is corrupt, " ++ err ++ "\nLet's create a new one\n"
              ∈ printed w.trace
            ∧ ∃ tail, w.trace = (World.fresh demoCorruptFs demoAnswers).trace
                ++ Event.print ("config file is corrupt, " ++ err
                    ++ "\nLet's create a new one\n")
                  :: Event.firstTimeCall :: tail
              ∧ firstTimeCalls tail = 0) :=
  ⟨⟨rfl, rfl, rfl, rfl⟩,
    (getConfig_present_file (demoEnv 201) (World.fresh demoFs demoAnswers) "/home/u/.config"
      demoConfigText rfl rfl rfl).elim
      fun w h => ⟨w, h.1, (h.2.2.1 (by decide)).1, (h.2.2.1 (by decide)).2.1⟩,
    (getConfig_present_file (demoEnv 201) (World.fresh demoCorruptFs demoAnswers)
      "/home/u/.config" demoCorruptText rfl rfl rfl).elim
      fun w h => ⟨w, h.1, (h.2.2.2 "invalid JSON text" (by decide)).1, "invalid JSON text",
        (h.2.2.2 "invalid JSON text" (by decide)).2.1,
        (h.2.2.2 "invalid JSON text" (by decide)).2.2⟩⟩

/-- How often `getConfig` enters interactive creation when the configuration file
cannot be read: once when the token is set afterwards, twice when it is still empty
(the contents of `file`, empty after the failed read, are then decoded, which fails). -/
theorem getConfig_absent_file (env : Env) (w0 : World) (dir err : String)
    (hdir : env.userConfigDir = Except.ok dir)
    (hfile : w0.fs (dir ++ "/blog-tool/config.json") = Except.error err) :
    ∃ w, getConfig env w0 = Outcome.ok w (dir ++ "/blog-tool/config.json")
      ∧ firstTimeCalls w.trace
        = firstTimeCalls w0.trace
          + (if (firstTime env (dir ++ "/blog-tool/config.json")
                (({ w0 with file := "" } : World).print
                  "Looks like this is your first time .Let's create a config file.\n")
              ).config.Token = "" then 2 else 1) := by
  have hnotice : sprintf "Looks like this is your first time .Let's create a config file.\n" []
      = "Looks like this is your first time .Let's create a config file.\n" := by decide
  have hfile0 : ∀ (env : Env) (p : String) (w : World), (saveConfig env p w).file = w.file := by
    intro env p w
    unfold saveConfig
    split <;> rfl
  have hscan : ∀ (f : ConfigField) (w : World), (scanField f w).file = w.file := by
    intro f w
    unfold scanField
    split <;> rfl
  have hft : ∀ (env : Env) (p : String) (w : World), (firstTime env p w).file = w.file := by
    intro env p w
    simp only [firstTime, hfile0, hscan, World.print, World.emit]
  have hg : getConfig env w0
      = Outcome.ok (decodeIfNoToken env (dir ++ "/blog-tool/config.json")
          (firstTime env (dir ++ "/blog-tool/config.json")
            (({ w0 with file := "" } : World).print
              "Looks like this is your first time .Let's create a config file.\n")))
          (dir ++ "/blog-tool/config.json") := by
    simp only [getConfig, hdir, sprintf_config_path, readConfigFile, hfile, onReadError, hnotice]
  refine ⟨_, hg, ?_⟩
  unfold decodeIfNoToken
  split_ifs with ht
  · rw [hft]
    simp only [World.print, unmarshalConfig_empty, firstTime_calls, firstTimeCalls_append,
      firstTimeCalls]
  · simp only [firstTime_calls, World.print, firstTimeCalls_append, firstTimeCalls]

/-- C10 fails on the code: with no configuration file and standard input at its end,
so that the token stays empty, `getConfig` enters interactive creation twice (and
prints the corruption warning for a file it has just written), in each of the commands
that load the configuration; with the five answers on standard input it enters it
once. -/
theorem getConfig_absent_file_twice :
    firstTimeCalls (getConfig (demoEnv 201) (World.fresh demoEmptyFs [])).world.trace = 2
      ∧ firstTimeCalls (noArgsCommand (demoEnv 201) (World.fresh demoEmptyFs [])).world.trace = 2
      ∧ firstTimeCalls
          (showConfigCommand (demoEnv 201) (World.fresh demoEmptyFs [])).world.trace = 2
      ∧ firstTimeCalls (pushCommand (demoEnv 201) demoNoFlags ["gh-file", "push", "a.md"]
          (World.fresh demoEmptyFs [])).world.trace = 2
      ∧ firstTimeCalls
          (getConfig (demoEnv 201) (World.fresh demoEmptyFs demoAnswers)).world.trace = 1
      ∧ ∃ err, "config file is corrupt, " ++ err ++ "\nLet's create a new one\n"
        ∈ printed (getConfig (demoEnv 201) (World.fresh demoEmptyFs [])).world.trace :=
  ⟨by decide, by decide, by decide, by decide, by decide, "invalid JSON text", by decide⟩

end GhFile
